import Mathlib

/-!
Verification development for the Visual Digit Replacement Engine
(`src/lib/smartErase.ts`, `src/lib/numberGenerator.ts`,
`src/app/api/detect/route.ts`, `src/lib/hiDpiCanvas.ts`).

The TypeScript code is shallowly embedded: JavaScript numbers are modelled
as exact rationals (`ℚ`), pixel coordinates as integers (`ℤ`), byte buffers
as functions `ℕ → ℕ`, and `Math.random()` as an explicit stream
`ℕ → ℕ` of draws (a call `Math.floor(Math.random() * n)` at stream
position `i` is modelled as `rnd i % n`, which ranges over exactly the
values the JavaScript expression can take).  Unbounded `do … while` retry
loops are modelled with explicit fuel returning `Option`: `some` outcomes
correspond exactly to terminating executions of the JavaScript loop.
Canvas text rasterisation (`fillText`, phase 2 of `smartEraseAndReplace`)
is outside the embedding; the embedded `smartEraseAndReplace` covers the
complete pixel-erasure behaviour (phase 1 and the rectangle-fallback
sweep) together with the replacement map and the draw list that phase 2
consumes.
-/

namespace SmartErase

/-- `BoundingBox` from `smartErase.ts`: pixel-space rectangle with
rational (sub-pixel) coordinates. -/
structure BoundingBox where
  x : ℚ
  y : ℚ
  width : ℚ
  height : ℚ
deriving DecidableEq

/-- `CharBbox` from `smartErase.ts`: one character's horizontal extent. -/
structure CharBbox where
  char : Char
  xmin : ℚ
  xmax : ℚ
deriving DecidableEq

/-- `FontStyle` union from `smartErase.ts`. -/
inductive FontStyle
  | maruGothic
  | gothic
  | mincho
  | handwritten
deriving DecidableEq

/-- `TextRole` union from `smartErase.ts` (all 36 alternatives). -/
inductive TextRole
  | base
  | sup
  | sub
  | sign
  | operator
  | relation
  | fractionBar
  | fractionNum
  | fractionDen
  | sqrtSign
  | sqrtVinculum
  | sqrtContent
  | sumOp
  | sumLower
  | sumUpper
  | prodOp
  | prodLower
  | prodUpper
  | intOp
  | intLower
  | intUpper
  | limOp
  | limSb
  | funcName
  | parenLeft
  | parenRight
  | absBar
  | vectorArrow
  | matrixBracket
  | matrixElement
  | derivativeOp
  | prime
  | infinitySym
  | factorial
  | degree
  | angleSymbol
deriving DecidableEq

/-- `DetectedNumber` from `smartErase.ts`. -/
structure DetectedNumber where
  text : String
  bbox : BoundingBox
  baselineY : Option ℚ
  fontStyle : Option FontStyle
  role : Option TextRole
  parentChar : Option String
  charBboxes : Option (List CharBbox)
deriving DecidableEq

/-- `SmartEraseOptions` from `smartErase.ts`, with every field present
(the TypeScript defaults are supplied by `defaultOptions`). -/
structure SmartEraseOptions where
  padding : ℚ
  minBrightness : ℚ
  minFontSize : ℚ
  smallBoxThreshold : ℚ
deriving DecidableEq

/-- The option defaults of `smartEraseAndReplace`:
`padding = 2`, `minBrightness = 200`, `minFontSize = 10`,
`smallBoxThreshold = 20`. -/
def defaultOptions : SmartEraseOptions :=
  { padding := 2, minBrightness := 200, minFontSize := 10, smallBoxThreshold := 20 }

/-- Browser `ImageData`: RGBA byte buffer.  `data i` is the `i`-th byte;
only indices below `width * height * 4` (the length of the underlying
`Uint8ClampedArray`) are ever consulted by the embedded code. -/
structure ImageData where
  width : ℕ
  height : ℕ
  data : ℕ → ℕ

/-- Length of the `data` array of an `ImageData` (always `w * h * 4`). -/
def ImageData.len (img : ImageData) : ℕ := img.width * img.height * 4

/-- An RGB colour (each channel a byte). -/
structure RGB where
  r : ℕ
  g : ℕ
  b : ℕ
deriving DecidableEq

/-- Pure white, the colour of the `'#FFFFFF'` fill string. -/
def pureWhite : RGB := ⟨255, 255, 255⟩

/-- `getLuminance` from `smartErase.ts`: `0.299*r + 0.587*g + 0.114*b`. -/
def getLuminance (r g b : ℕ) : ℚ := (299 * r + 587 * g + 114 * b : ℚ) / 1000

/-- `INK_THRESHOLD` from `smartErase.ts`. -/
def INK_THRESHOLD : ℚ := 180

/-- `PAPER_THRESHOLD` from `smartErase.ts` (declared, not used by the
functions below — kept for completeness). -/
def PAPER_THRESHOLD : ℚ := 220

/-- `isInkPixel` from `smartErase.ts`. -/
def isInkPixel (luminance : ℚ) : Bool := luminance < INK_THRESHOLD

/-- JavaScript `Math.round` on an exact rational: round half toward
positive infinity. -/
def jsRound (q : ℚ) : ℤ := ⌊q + 1 / 2⌋

/-- The integers `a, a+1, …, b` (empty when `b < a`), used to embed
JavaScript `for` loops over integer ranges. -/
def intRange (a b : ℤ) : List ℤ := (List.range (b - a + 1).toNat).map (fun k : ℕ => a + (k : ℤ))

/-- Write one byte of an `ImageData` buffer. -/
def ImageData.setByte (img : ImageData) (i v : ℕ) : ImageData :=
  { img with data := fun j => if j = i then v else img.data j }

/-- `applyBlobErasure` from `smartErase.ts`: overwrite the red, green and
blue bytes of every pixel key in `erasedPixels` with the background
colour, leaving alpha untouched.  (The function's `ctx` argument is
unused in the source and omitted here; keys are `y * width + x` pixel
indices.) -/
def applyBlobErasure (img : ImageData) (erasedPixels : List ℤ) (bgColor : RGB) : ImageData :=
  erasedPixels.foldl
    (fun acc key =>
      let idx : ℤ := key * 4
      if 0 ≤ idx ∧ idx + 3 < (acc.len : ℤ) then
        ((acc.setByte idx.toNat bgColor.r).setByte (idx.toNat + 1) bgColor.g).setByte
          (idx.toNat + 2) bgColor.b
      else acc)
    img

-- ====================================
-- Replacement value generation
-- ====================================

/-- One iteration bundle for the `do { newDigit = … } while (newDigit ===
originalDigit)` loop of `generateDifferentNumber`: draw digits from the
stream starting at `pos` until one differs from `d`.  Returns the digit
and the next stream position; `none` when `fuel` draws were all equal to
`d` (the JavaScript loop would still be running). -/
def drawDiffDigit (rnd : ℕ → ℕ) (d : ℕ) : ℕ → ℕ → Option (ℕ × ℕ)
  | _, 0 => none
  | pos, fuel + 1 =>
    let v := rnd pos % 10
    if v = d then drawDiffDigit rnd d (pos + 1) fuel else some (v, pos + 1)

/-- The per-digit loop body of `generateDifferentNumber`: convert each
digit character to a fresh random digit different from it. -/
def genDigitsLoop (rnd : ℕ → ℕ) (fuel : ℕ) : List Char → ℕ → Option (List Char × ℕ)
  | [], pos => some ([], pos)
  | c :: cs, pos => do
    let (v, pos1) ← drawDiffDigit rnd (c.toNat - 48) pos fuel
    let (rest, pos2) ← genDigitsLoop rnd fuel cs pos1
    some (Char.ofNat (48 + v) :: rest, pos2)

/-- `generateDifferentNumber` from `smartErase.ts`: strip non-digits,
redraw each digit until it differs from the original digit, and return
the concatenation (the original string is returned unchanged when it has
no digits).  The stream position is threaded; `none` models a
non-terminating retry loop. -/
def generateDifferentNumber (original : String) (rnd : ℕ → ℕ) (pos fuel : ℕ) :
    Option (String × ℕ) :=
  let numericPart := original.toList.filter Char.isDigit
  if numericPart.isEmpty then some (original, pos)
  else (genDigitsLoop rnd fuel numericPart pos).map fun p => (String.mk p.1, p.2)

/-- `generateRandomNumber` from `numberGenerator.ts`: one draw sized by
the digit count of `original` (`1–9` for one digit, `[10^(d-1), 10^d-1]`
otherwise).  Faithful for `original.length ≥ 1`, the only way the
repository calls it. -/
def generateRandomNumber (original : String) (rnd : ℕ → ℕ) (pos : ℕ) : String :=
  let digits := original.length
  if digits = 1 then toString (rnd pos % 9 + 1)
  else
    let mn := 10 ^ (digits - 1)
    let mx := 10 ^ digits - 1
    toString (rnd pos % (mx - mn + 1) + mn)

/-- The `do { replacement = …; attempts++ } while (replacement ===
original && attempts < 10)` loop of `generateRandomReplacements`.
`left` is the number of loop iterations still allowed (`10` at entry);
each iteration consumes one draw.  Returns the final replacement and the
next stream position. -/
def genRetry (original : String) (rnd : ℕ → ℕ) : ℕ → ℕ → String × ℕ
  | pos, 0 => (generateRandomNumber original rnd pos, pos + 1)
  | pos, left + 1 =>
    let r := generateRandomNumber original rnd pos
    if r = original ∧ 0 < left then genRetry original rnd (pos + 1) left
    else (r, pos + 1)

/-- `generateRandomReplacements` from `numberGenerator.ts`: map each
original to a bounded-retry random replacement, reusing the replacement
already assigned to an equal original.  Returns the `(original,
replacement)` pairs and the final stream position. -/
def generateRandomReplacements (numbers : List String) (rnd : ℕ → ℕ) (pos : ℕ) :
    List (String × String) × ℕ :=
  numbers.foldl
    (fun st original =>
      match (st.1.find? fun p => p.1 = original) with
      | some p => (st.1 ++ [(original, p.2)], st.2)
      | none =>
        let r := genRetry original rnd st.2 10
        (st.1 ++ [(original, r.1)], r.2))
    ([], pos)

-- ====================================
-- Background sampling and erase rectangles
-- ====================================

/-- `pixelIndex` from `smartErase.ts`: `(y * width + x) * 4`. -/
def pixelIndex (x y : ℤ) (width : ℕ) : ℤ := (y * width + x) * 4

/-- `getPixelLuminance` from `smartErase.ts`: luminance of a pixel, `255`
when the index falls outside the buffer. -/
def getPixelLuminance (img : ImageData) (x y : ℤ) : ℚ :=
  let idx := pixelIndex x y img.width
  if idx < 0 ∨ (img.len : ℤ) ≤ idx + 3 then 255
  else getLuminance (img.data idx.toNat) (img.data (idx.toNat + 1)) (img.data (idx.toNat + 2))

/-- The record accumulated by `sampleBrightestBorderColor`. -/
structure SampledColor where
  r : ℕ
  g : ℕ
  b : ℕ
  luminance : ℚ
deriving DecidableEq

/-- One candidate inspection inside `sampleBrightestBorderColor`: keep the
new pixel exactly when its index is in range and its luminance strictly
exceeds the current best. -/
def sampleUpdate (img : ImageData) (idx : ℤ) (best : SampledColor) : SampledColor :=
  if 0 ≤ idx ∧ idx + 3 < (img.len : ℤ) then
    let r := img.data idx.toNat
    let g := img.data (idx.toNat + 1)
    let b := img.data (idx.toNat + 2)
    let lum := getLuminance r g b
    if best.luminance < lum then ⟨r, g, b, lum⟩ else best
  else best

/-- `sampleBrightestBorderColor` from `smartErase.ts`: scan the four
border edges of the padded box (top and bottom rows first, then left and
right columns) and keep the brightest pixel found. -/
def sampleBrightestBorderColor (img : ImageData) (box : BoundingBox) (padding : ℚ)
    (canvasWidth canvasHeight : ℕ) : SampledColor :=
  let x1 : ℤ := max 0 ⌊box.x - padding⌋
  let y1 : ℤ := max 0 ⌊box.y - padding⌋
  let x2 : ℤ := min ((canvasWidth : ℤ) - 1) ⌈box.x + box.width + padding⌉
  let y2 : ℤ := min ((canvasHeight : ℤ) - 1) ⌈box.y + box.height + padding⌉
  let afterRows := (intRange x1 x2).foldl
    (fun best x =>
      sampleUpdate img ((y2 * canvasWidth + x) * 4)
        (sampleUpdate img ((y1 * canvasWidth + x) * 4) best))
    ⟨255, 255, 255, 0⟩
  (intRange y1 y2).foldl
    (fun best y =>
      sampleUpdate img ((y * canvasWidth + x2) * 4)
        (sampleUpdate img ((y * canvasWidth + x1) * 4) best))
    afterRows

/-- The fill-colour selection of `calculateEraseRect` (and of the legacy
`smartErase`): snap to pure white when the sampled background is
near-white on all three channels or darker than `minBrightness`. -/
def rectFillColor (bgColor : SampledColor) (minBrightness : ℚ) : RGB :=
  if (210 < bgColor.r ∧ 210 < bgColor.g ∧ 210 < bgColor.b) ∨ bgColor.luminance < minBrightness
  then pureWhite
  else ⟨bgColor.r, bgColor.g, bgColor.b⟩

/-- The fill-colour selection on the blob-erasure path of
`smartEraseAndReplace` (phase 1): white only when the sampled luminance is
below `minBrightness`, otherwise the measured tint. -/
def blobFillColor (bgColor : SampledColor) (minBrightness : ℚ) : RGB :=
  if bgColor.luminance < minBrightness then pureWhite
  else ⟨bgColor.r, bgColor.g, bgColor.b⟩

/-- `EraseRect` from `smartErase.ts` (the fill colour as an RGB triple
rather than a CSS string). -/
structure EraseRect where
  x1 : ℤ
  y1 : ℤ
  fillWidth : ℤ
  fillHeight : ℤ
  fillColor : RGB

/-- `calculateEraseRect` from `smartErase.ts`. -/
def calculateEraseRect (bbox : BoundingBox) (padding : ℚ) (img : ImageData)
    (canvasWidth canvasHeight : ℕ) (minBrightness : ℚ) : EraseRect :=
  let x1 : ℤ := max 0 ⌊bbox.x - padding⌋
  let y1 : ℤ := max 0 ⌊bbox.y - padding⌋
  let x2 : ℤ := min (canvasWidth : ℤ) ⌈bbox.x + bbox.width + padding⌉
  let y2 : ℤ := min (canvasHeight : ℤ) ⌈bbox.y + bbox.height + padding⌉
  let bgColor := sampleBrightestBorderColor img bbox padding canvasWidth canvasHeight
  ⟨x1, y1, x2 - x1, y2 - y1, rectFillColor bgColor minBrightness⟩

/-- `ctx.fillRect` with an identity transform, integer corners and an
opaque fill style: overwrite the RGB bytes of every covered in-canvas
pixel and set its alpha to 255. -/
def ImageData.fillRect (img : ImageData) (x1 y1 fw fh : ℤ) (c : RGB) : ImageData :=
  (intRange (max 0 y1) (min (img.height : ℤ) (y1 + fh) - 1)).foldl
    (fun im y =>
      (intRange (max 0 x1) (min (im.width : ℤ) (x1 + fw) - 1)).foldl
        (fun im2 x =>
          let idx := ((y * (im2.width : ℤ) + x) * 4).toNat
          (((im2.setByte idx c.r).setByte (idx + 1) c.g).setByte (idx + 2) c.b).setByte
            (idx + 3) 255)
        im)
    img

/-- `ctx.getImageData(sx, sy, sw, sh)`: extract a sub-buffer, padding
pixels that fall outside the canvas with transparent black. -/
def getSubImageData (img : ImageData) (sx sy : ℤ) (sw sh : ℕ) : ImageData :=
  { width := sw
    height := sh
    data := fun j =>
      let p := j / 4
      let ch := j % 4
      let i := p % sw
      let r := p / sw
      let gx := sx + (i : ℤ)
      let gy := sy + (r : ℤ)
      if 0 ≤ gx ∧ gx < (img.width : ℤ) ∧ 0 ≤ gy ∧ gy < (img.height : ℤ) ∧ j < sw * sh * 4
      then img.data (((gy * (img.width : ℤ) + gx) * 4).toNat + ch)
      else 0 }

-- ====================================
-- Smart blob erasure (flood fill)
-- ====================================

/-- The neighbour offsets of the flood fill, in source order (4-connected
first, then diagonals). -/
def floodDirections : List (ℤ × ℤ) :=
  [(-1, 0), (1, 0), (0, -1), (0, 1), (-1, -1), (1, -1), (-1, 1), (1, 1)]

/-- The seed search of `floodFillErase`: scan the square of radius
`searchRadius` around the box centre (in source iteration order) and keep
the first darkest in-range pixel.  Returns `(seedX, seedY, darkestLum)`. -/
def seedSearch (img : ImageData) (x1 x2 y1 y2 centerX centerY : ℤ) (searchRadius : ℚ) :
    ℤ × ℤ × ℚ :=
  let n := (⌊2 * searchRadius⌋).toNat
  (List.range (n + 1)).foldl
    (fun st ky =>
      (List.range (n + 1)).foldl
        (fun st kx =>
          let px := centerX + ⌊(kx : ℚ) - searchRadius⌋
          let py := centerY + ⌊(ky : ℚ) - searchRadius⌋
          if px < x1 ∨ x2 < px ∨ py < y1 ∨ y2 < py then st
          else
            let lum := getPixelLuminance img px py
            if lum < st.2.2 then (px, py, lum) else st)
        st)
    (centerX, centerY, (255 : ℚ))

/-- The BFS queue loop of `floodFillErase`.  `fuel` bounds the number of
iterations; since every queue entry is pushed at most once per processed
ink pixel and each key is processed at most once, `9 * width * height +
9` iterations (the fuel supplied by `floodFillErase`) always suffice to
drain the queue. -/
def bfsFlood (img : ImageData) (x1 x2 y1 y2 : ℤ) :
    ℕ → List (ℤ × ℤ) → List ℤ → List (ℤ × ℤ) → List (ℤ × ℤ)
  | 0, _, _, acc => acc
  | _ + 1, [], _, acc => acc
  | fuel + 1, (cx, cy) :: rest, visited, acc =>
    let key := cy * img.width + cx
    if key ∈ visited then bfsFlood img x1 x2 y1 y2 fuel rest visited acc
    else
      let visited1 := key :: visited
      if cx < x1 - 2 ∨ x2 + 2 < cx ∨ cy < y1 - 2 ∨ y2 + 2 < cy then
        bfsFlood img x1 x2 y1 y2 fuel rest visited1 acc
      else if isInkPixel (getPixelLuminance img cx cy) then
        let nbrs := floodDirections.filterMap fun d =>
          let nx := cx + d.1
          let ny := cy + d.2
          let nkey := ny * img.width + nx
          if nkey ∉ visited1 ∧ 0 ≤ nx ∧ nx < (img.width : ℤ) ∧ 0 ≤ ny ∧ ny < (img.height : ℤ)
          then some (nx, ny)
          else none
        bfsFlood img x1 x2 y1 y2 fuel (rest ++ nbrs) visited1 (acc ++ [(cx, cy)])
      else bfsFlood img x1 x2 y1 y2 fuel rest visited1 acc

/-- `BlobEraseResult` from `smartErase.ts`; `erasedPixels` is the
insertion-ordered list of distinct `y * width + x` keys standing for the
JavaScript `Set`. -/
structure BlobEraseResult where
  success : Bool
  erasedPixels : List ℤ
  centroidX : ℚ
  centroidY : ℚ
  blobWidth : ℤ
  blobHeight : ℤ

/-- Add a key to an insertion-ordered set representation. -/
def insertUnique (l : List ℤ) (a : ℤ) : List ℤ := if a ∈ l then l else l ++ [a]

/-- Minimum of a list of integers (the fold seeded with the head, so the
value on `[]` is irrelevant; `floodFillErase` only evaluates it on
non-empty lists). -/
def listMin (l : List ℤ) : ℤ := l.foldl min (l.headD 0)

/-- Maximum of a list of integers, as `listMin`. -/
def listMax (l : List ℤ) : ℤ := l.foldl max (l.headD 0)

/-- `floodFillErase` from `smartErase.ts`: find the darkest pixel near the
box centre, flood-fill the connected ink region from it (bounded to the
padded box plus a 2-pixel margin), reject blobs below the minimum area,
and report the erased keys, centroid and blob extent. -/
def floodFillErase (img : ImageData) (bbox : BoundingBox) (padding : ℚ) : BlobEraseResult :=
  let x1 : ℤ := max 0 ⌊bbox.x - padding⌋
  let y1 : ℤ := max 0 ⌊bbox.y - padding⌋
  let x2 : ℤ := min ((img.width : ℤ) - 1) ⌈bbox.x + bbox.width + padding⌉
  let y2 : ℤ := min ((img.height : ℤ) - 1) ⌈bbox.y + bbox.height + padding⌉
  let centerX : ℤ := ⌊bbox.x + bbox.width / 2⌋
  let centerY : ℤ := ⌊bbox.y + bbox.height / 2⌋
  let searchRadius : ℚ := max 3 (min bbox.width bbox.height / 4)
  let seed := seedSearch img x1 x2 y1 y2 centerX centerY searchRadius
  if ¬ isInkPixel seed.2.2 then
    ⟨false, [], (centerX : ℚ), (centerY : ℚ), 0, 0⟩
  else
    let inkPixels := bfsFlood img x1 x2 y1 y2 (9 * img.width * img.height + 9)
      [(seed.1, seed.2.1)] [] []
    let minBlobArea : ℚ := max 4 (bbox.width * bbox.height * (5 / 100))
    if (inkPixels.length : ℚ) < minBlobArea then
      ⟨false, [], (centerX : ℚ), (centerY : ℚ), 0, 0⟩
    else
      let xs := inkPixels.map Prod.fst
      let ys := inkPixels.map Prod.snd
      let sumX : ℤ := xs.foldl (· + ·) 0
      let sumY : ℤ := ys.foldl (· + ·) 0
      let erasedSet := inkPixels.foldl (fun s p => insertUnique s (p.2 * img.width + p.1)) []
      ⟨true, erasedSet,
        (sumX : ℚ) / (inkPixels.length : ℚ), (sumY : ℚ) / (inkPixels.length : ℚ),
        listMax xs - listMin xs + 1, listMax ys - listMin ys + 1⟩

/-- `dilateErasedArea` from `smartErase.ts`: grow the erased key set by
`dilationRadius` in every direction, clipped to the canvas.  (All keys
produced by `floodFillErase` are non-negative, so floor division and
Euclidean remainder both agree with the JavaScript decode.) -/
def dilateErasedArea (erasedPixels : List ℤ) (imgWidth imgHeight : ℕ)
    (dilationRadius : ℕ) : List ℤ :=
  let offsets := (List.range (2 * dilationRadius + 1)).map fun k : ℕ => (k : ℤ) - (dilationRadius : ℤ)
  erasedPixels.foldl
    (fun dilated key =>
      let y := Int.fdiv key imgWidth
      let x := key % (imgWidth : ℤ)
      offsets.foldl
        (fun dil dy =>
          offsets.foldl
            (fun dil2 dx =>
              let nx := x + dx
              let ny := y + dy
              if 0 ≤ nx ∧ nx < (imgWidth : ℤ) ∧ 0 ≤ ny ∧ ny < (imgHeight : ℤ) then
                insertUnique dil2 (ny * imgWidth + nx)
              else dil2)
            dil)
        dilated)
    (erasedPixels.foldl insertUnique [])

-- ====================================
-- Token safety classifier
-- ====================================

/-- `SAFE_NUMBER_RE = /^\d{1,2}$/` from `smartErase.ts`. -/
def safeNumberRe (s : String) : Bool :=
  (s.length = 1 || s.length = 2) && s.toList.all Char.isDigit

/-- `COMPLEX_ROLES` from `smartErase.ts`. -/
def COMPLEX_ROLES : List TextRole :=
  [.fractionBar, .fractionNum, .fractionDen,
   .sqrtSign, .sqrtVinculum, .sqrtContent,
   .sumOp, .sumLower, .sumUpper,
   .prodOp, .prodLower, .prodUpper,
   .intOp, .intLower, .intUpper,
   .limOp, .limSb,
   .matrixBracket, .matrixElement]

/-- `isSafeReplacementToken` from `smartErase.ts`: the six-rule safety
filter (short integer text, non-complex role, non-script role,
non-degenerate and not-too-large box, away from the right and top
edges). -/
def isSafeReplacementToken (detection : DetectedNumber) (canvasWidth canvasHeight : ℚ) :
    Bool :=
  let text := detection.text
  let bbox := detection.bbox
  let role := detection.role.getD .base
  if ¬ safeNumberRe text then false
  else if role ∈ COMPLEX_ROLES then false
  else if role = .sup ∨ role = .sub then false
  else if bbox.width ≤ 0 ∨ bbox.height ≤ 0 then false
  else if canvasWidth * (15 / 100) < bbox.width then false
  else if canvasHeight * (1 / 10) < bbox.height then false
  else if canvasWidth * (95 / 100) < bbox.x + bbox.width then false
  else if bbox.y < canvasHeight * (5 / 100) then false
  else true

-- ====================================
-- Geometry conversion (detect route and hiDpiCanvas)
-- ====================================

/-- A CSS-space rectangle from `hiDpiCanvas.ts`. -/
structure CSSRect where
  x : ℚ
  y : ℚ
  width : ℚ
  height : ℚ
deriving DecidableEq

/-- `normalizedBboxToCSS` from `hiDpiCanvas.ts` (after destructuring the
record or array argument into its four corners): scale normalized `0–1`
corners by the CSS dimensions with no rounding. -/
def normalizedBboxToCSS (xMin yMin xMax yMax canvasCssWidth canvasCssHeight : ℚ) :
    CSSRect :=
  { x := xMin * canvasCssWidth
    y := yMin * canvasCssHeight
    width := (xMax - xMin) * canvasCssWidth
    height := (yMax - yMin) * canvasCssHeight }

/-- The bounding-box coordinate conversion inside `parseDetectionResult`
(`src/app/api/detect/route.ts`): normalized `0–1000` corners to pixel
coordinates, each passed through `Math.round`. -/
def parseDetectionBbox (xmin ymin xmax ymax imageWidth imageHeight : ℚ) :
    ℤ × ℤ × ℤ × ℤ :=
  (jsRound (xmin / 1000 * imageWidth),
   jsRound (ymin / 1000 * imageHeight),
   jsRound ((xmax - xmin) / 1000 * imageWidth),
   jsRound ((ymax - ymin) / 1000 * imageHeight))

/-- The `baselineY` conversion inside `parseDetectionResult`: JavaScript
truthiness means the value is converted only when present and non-zero,
and the conversion rounds. -/
def parseDetectionBaselineY (baselineY : Option ℚ) (imageHeight : ℚ) : Option ℤ :=
  match baselineY with
  | some v => if v ≠ 0 then some (jsRound (v / 1000 * imageHeight)) else none
  | none => none

/-- The per-character extent conversion inside `parseDetectionResult`:
each `xmin`/`xmax` is scaled and passed through `Math.round`. -/
def parseDetectionCharBbox (xmin xmax imageWidth : ℚ) : ℤ × ℤ :=
  (jsRound (xmin / 1000 * imageWidth), jsRound (xmax / 1000 * imageWidth))

-- ====================================
-- The erase-and-replace pass
-- ====================================

/-- `DrawInfo` from `smartErase.ts` (the font preset member only feeds the
unembedded phase-2 glyph rendering and is omitted; `detection` already
carries the centroid-shifted box when blob erasure succeeded). -/
structure DrawInfo where
  detection : DetectedNumber
  newNumber : String
  fontSize : ℚ
deriving DecidableEq

/-- State threaded through the phase-1 loop of `smartEraseAndReplace`:
the pixel buffer, the replacement `Map` (insertion-ordered pairs with
distinct keys), the pending draw list, and the random-stream position. -/
structure PassState where
  img : ImageData
  replacements : List (String × String)
  drawInfos : List DrawInfo
  pos : ℕ

/-- JavaScript `Map.set`: replace the value in place when the key exists,
append otherwise. -/
def mapSet (m : List (String × String)) (k v : String) : List (String × String) :=
  if m.any fun p => p.1 = k then m.map fun p => if p.1 = k then (k, v) else p
  else m ++ [(k, v)]

/-- JavaScript `Map.get` (as an `Option`). -/
def mapGet (m : List (String × String)) (k : String) : Option String :=
  (m.find? fun p => p.1 = k).map fun p => p.2

/-- Outcome of the per-token erase attempt in phase 1 (the local
variables `centroidX`, `centroidY`, `effectiveBlobHeight`, `eraseSuccess`
of the source loop, plus the possibly-updated buffer). -/
structure EraseAttempt where
  img : ImageData
  centroidX : ℚ
  centroidY : ℚ
  effectiveBlobHeight : ℚ
  eraseSuccess : Bool

/-- The `isSmallBox` padding choice at the head of each phase-1
iteration: boxes with a side below `smallBoxThreshold` get padding `1`,
all others the configured base padding. -/
def tokenPadding (detection : DetectedNumber) (opts : SmartEraseOptions) : ℚ :=
  if detection.bbox.height < opts.smallBoxThreshold ∨
     detection.bbox.width < opts.smallBoxThreshold then 1
  else opts.padding

/-- The erase attempt of one phase-1 iteration: try blob erasure, and on
success dilate by one ring and overwrite with the background estimate
(the failing branch of the source computes an unused `calculateEraseRect`
and defers the rectangle to the fallback sweep). -/
def phase1Erase (opts : SmartEraseOptions) (img : ImageData) (bbox : BoundingBox)
    (padding : ℚ) : EraseAttempt :=
  let blobResult := floodFillErase img bbox padding
  if blobResult.success = true ∧ 0 < blobResult.erasedPixels.length then
    let dilatedPixels := dilateErasedArea blobResult.erasedPixels img.width img.height 1
    let bgColor := sampleBrightestBorderColor img bbox padding img.width img.height
    let fillColor := blobFillColor bgColor opts.minBrightness
    ⟨applyBlobErasure img dilatedPixels fillColor,
      blobResult.centroidX, blobResult.centroidY, (blobResult.blobHeight : ℚ), true⟩
  else
    ⟨img, bbox.x + bbox.width / 2, bbox.y + bbox.height / 2, bbox.height, false⟩

/-- One iteration of the phase-1 loop of `smartEraseAndReplace`: skip
unsafe tokens; otherwise erase, generate the replacement, record it in
the map and push the draw info (with the centroid-recentred box when blob
erasure succeeded). -/
def phase1Step (opts : SmartEraseOptions) (fuel : ℕ) (rnd : ℕ → ℕ)
    (st : PassState) (detection : DetectedNumber) : Option PassState :=
  let bbox := detection.bbox
  if ¬ isSafeReplacementToken detection st.img.width st.img.height then some st
  else
    let att := phase1Erase opts st.img bbox (tokenPadding detection opts)
    match generateDifferentNumber detection.text rnd st.pos fuel with
    | none => none
    | some (newNumber, pos1) =>
      let calculatedFontSize := jsRound (att.effectiveBlobHeight * (75 / 100))
      let fontSize : ℚ := max (calculatedFontSize : ℚ) opts.minFontSize
      let newBbox : BoundingBox :=
        if att.eraseSuccess then
          { x := att.centroidX - bbox.width / 2, y := att.centroidY - bbox.height / 2,
            width := bbox.width, height := bbox.height }
        else bbox
      some
        { img := att.img
          replacements := mapSet st.replacements detection.text newNumber
          drawInfos := st.drawInfos ++
            [{ detection := { detection with bbox := newBbox },
               newNumber := newNumber, fontSize := fontSize }]
          pos := pos1 }

/-- The phase-1 loop over all detections. -/
def phase1 (opts : SmartEraseOptions) (fuel : ℕ) (rnd : ℕ → ℕ) :
    List DetectedNumber → PassState → Option PassState
  | [], st => some st
  | d :: ds, st =>
    match phase1Step opts fuel rnd st d with
    | none => none
    | some st1 => phase1 opts fuel rnd ds st1

/-- The remaining-ink probe at the head of each fallback-sweep iteration
of `smartEraseAndReplace`: extract the padded sub-buffer around the draw
box with `getImageData` and flood-fill it with padding 1. -/
def fallbackCheck (opts : SmartEraseOptions) (img : ImageData) (bbox : BoundingBox) :
    BlobEraseResult :=
  let basePadding := opts.padding
  let sub := getSubImageData img (max 0 ⌊bbox.x - basePadding⌋) (max 0 ⌊bbox.y - basePadding⌋)
    (⌈bbox.width + basePadding * 2⌉).toNat (⌈bbox.height + basePadding * 2⌉).toNat
  floodFillErase sub
    { x := basePadding, y := basePadding, width := bbox.width, height := bbox.height } 1

/-- One iteration of the rectangle-fallback sweep of
`smartEraseAndReplace`: re-run the flood fill on a sub-buffer around the
draw box and, when ink remains there, fill the padded rectangle with the
border background estimate. -/
def fallbackStep (opts : SmartEraseOptions) (img : ImageData) (di : DrawInfo) : ImageData :=
  let bbox := di.detection.bbox
  if 0 < (fallbackCheck opts img bbox).erasedPixels.length then
    let eraseRect := calculateEraseRect bbox opts.padding img img.width img.height
      opts.minBrightness
    img.fillRect eraseRect.x1 eraseRect.y1 eraseRect.fillWidth eraseRect.fillHeight
      eraseRect.fillColor
  else img

/-- The pixel-level behaviour of `smartEraseAndReplace` from
`smartErase.ts`: phase 1 (safety filter, blob erasure, replacement
generation, draw-info collection) followed by the rectangle-fallback
sweep over the collected draw infos.  Phase 2 (glyph rendering through
`fillText`) is outside the embedding; the function returns the buffer it
leaves behind for phase 2, the replacement map and the draw list.
`none` models a run whose digit-redraw loop never terminates. -/
def smartEraseAndReplace (img : ImageData) (detections : List DetectedNumber)
    (opts : SmartEraseOptions) (rnd : ℕ → ℕ) (pos fuel : ℕ) : Option PassState :=
  match phase1 opts fuel rnd detections ⟨img, [], [], pos⟩ with
  | none => none
  | some st =>
    some { st with img := st.drawInfos.foldl (fallbackStep opts) st.img }

-- ====================================
-- Write-region predicates (used to state the frame properties)
-- ====================================

/-- The pixel `(px, py)` lies within `m` pixels (in the open sense, after
the floor/ceil snap) of the box padded by `padding`. -/
def PixelNear (bbox : BoundingBox) (padding m : ℚ) (px py : ℤ) : Prop :=
  bbox.x - padding - m < (px : ℚ) ∧ (px : ℚ) < bbox.x + bbox.width + padding + m ∧
  bbox.y - padding - m < (py : ℚ) ∧ (py : ℚ) < bbox.y + bbox.height + padding + m

/-- A pixel the BFS flood fill may accept: in canvas bounds and within
the 2-pixel expanded margin of the snapped padded box `[x1, x2] × [y1,
y2]`. -/
def FloodPix (w h : ℕ) (x1 x2 y1 y2 : ℤ) (q : ℤ × ℤ) : Prop :=
  0 ≤ q.1 ∧ q.1 < (w : ℤ) ∧ 0 ≤ q.2 ∧ q.2 < (h : ℤ) ∧
  x1 - 2 ≤ q.1 ∧ q.1 ≤ x2 + 2 ∧ y1 - 2 ≤ q.2 ∧ q.2 ≤ y2 + 2

/-- A draw box the phase-1 loop can hand to the fallback sweep for the
token `det`: the original box, or the centroid-recentred box, whose
offset from the original is bounded by half the box size plus the
padding/flood-margin budget. -/
def BoxShifted (det : DetectedNumber) (opts : SmartEraseOptions) (db : BoundingBox) : Prop :=
  db.width = det.bbox.width ∧ db.height = det.bbox.height ∧
  det.bbox.x - (det.bbox.width / 2 + tokenPadding det opts + 3) ≤ db.x ∧
  db.x ≤ det.bbox.x + det.bbox.width / 2 + tokenPadding det opts + 3 ∧
  det.bbox.y - (det.bbox.height / 2 + tokenPadding det opts + 3) ≤ db.y ∧
  db.y ≤ det.bbox.y + det.bbox.height / 2 + tokenPadding det opts + 3

/-- The erase neighbourhood of a token: every pixel `smartEraseAndReplace`
can touch on behalf of this token (blob erasure with its 2-pixel flood
margin and 1-pixel dilation, or the fallback rectangle around the
possibly centroid-recentred box) lies strictly inside the token's box
expanded by `width/2 + tokenPadding + basePadding + 4` horizontally and
`height/2 + tokenPadding + basePadding + 4` vertically. -/
def inRegion (det : DetectedNumber) (opts : SmartEraseOptions) (x y : ℕ) : Prop :=
  let b := det.bbox
  let budgetX : ℚ := b.width / 2 + tokenPadding det opts + opts.padding + 4
  let budgetY : ℚ := b.height / 2 + tokenPadding det opts + opts.padding + 4
  b.x - budgetX < (x : ℚ) ∧ (x : ℚ) < b.x + b.width + budgetX ∧
  b.y - budgetY < (y : ℚ) ∧ (y : ℚ) < b.y + b.height + budgetY

instance (det : DetectedNumber) (opts : SmartEraseOptions) (x y : ℕ) :
    Decidable (inRegion det opts x y) := by
  unfold inRegion; infer_instance

-- ====================================
-- Concrete scenarios (inputs for counterexamples and witnesses)
-- ====================================

/-- A token the safety filter accepts on a 40×40 canvas: the digit "7"
with box `(10, 10, 3, 3)`. -/
def exSafeToken : DetectedNumber :=
  { text := "7", bbox := { x := 10, y := 10, width := 3, height := 3 },
    baselineY := none, fontStyle := none, role := none, parentChar := none,
    charBboxes := none }

/-- A token the safety filter rejects (three digits), with box
`(6, 10, 3, 3)` immediately left of `exSafeToken`. -/
def exRejectedToken : DetectedNumber :=
  { text := "123", bbox := { x := 6, y := 10, width := 3, height := 3 },
    baselineY := none, fontStyle := none, role := none, parentChar := none,
    charBboxes := none }

/-- A second safe "7" far from `exSafeToken`, with box `(20, 20, 3, 3)`. -/
def exFarToken : DetectedNumber :=
  { text := "7", bbox := { x := 20, y := 20, width := 3, height := 3 },
    baselineY := none, fontStyle := none, role := none, parentChar := none,
    charBboxes := none }

/-- A 40×40 opaque white canvas with a dark reddish ink run
(RGB `(100, 60, 60)`, luminance `71.96`) on row `y = 11` at
`x = 7 … 12`: the run starts inside `exRejectedToken`'s box and crosses
`exSafeToken`'s box. -/
def exInkImage : ImageData :=
  { width := 40, height := 40,
    data := fun j =>
      let p := j / 4
      let ch := j % 4
      let x := p % 40
      let y := p / 40
      if ch = 3 then 255
      else if y = 11 ∧ 7 ≤ x ∧ x ≤ 12 then (if ch = 0 then 100 else 60)
      else 255 }

/-- A 40×40 opaque pure-white canvas. -/
def exWhiteImage : ImageData :=
  { width := 40, height := 40, data := fun _ => 255 }

/-- A 40×40 opaque canvas whose background is the near-white tint
`(240, 240, 240)` (every channel above 210) with a black ink plus-shape
inside `exSafeToken`'s box. -/
def exTintImage : ImageData :=
  { width := 40, height := 40,
    data := fun j =>
      let p := j / 4
      let ch := j % 4
      let x := p % 40
      let y := p / 40
      if ch = 3 then 255
      else if (y = 11 ∧ 10 ≤ x ∧ x ≤ 12) ∨ (x = 11 ∧ 10 ≤ y ∧ y ≤ 12) then 0
      else 240 }

-- ====================================
-- Theorems
-- ====================================

/-- Characterisation of the `^\d{1,2}$` test. -/
theorem safeNumberRe_iff (s : String) :
    safeNumberRe s = true ↔
      (s.length = 1 ∨ s.length = 2) ∧ ∀ c ∈ s.toList, c.isDigit = true := by
  simp [safeNumberRe, List.all_eq_true]

/-- Full characterisation of `isSafeReplacementToken`. -/
theorem isSafeReplacementToken_iff (d : DetectedNumber) (W H : ℚ) :
    isSafeReplacementToken d W H = true ↔
      ((d.text.length = 1 ∨ d.text.length = 2) ∧ (∀ c ∈ d.text.toList, c.isDigit = true)) ∧
      d.role.getD .base ∉ COMPLEX_ROLES ∧
      d.role.getD .base ≠ .sup ∧ d.role.getD .base ≠ .sub ∧
      0 < d.bbox.width ∧ 0 < d.bbox.height ∧
      d.bbox.width ≤ W * (15 / 100) ∧ d.bbox.height ≤ H * (1 / 10) ∧
      d.bbox.x + d.bbox.width ≤ W * (95 / 100) ∧ H * (5 / 100) ≤ d.bbox.y := by
  unfold isSafeReplacementToken
  simp only []
  split_ifs with h1 h2 h3 h4 h5 h6 h7 h8
  · exact iff_of_false (by simp) fun hc => hc.2.1 h2
  · refine iff_of_false (by simp) fun hc => ?_
    rcases h3 with h | h
    exacts [hc.2.2.1 h, hc.2.2.2.1 h]
  · refine iff_of_false (by simp) fun hc => ?_
    rcases h4 with h | h
    · exact absurd hc.2.2.2.2.1 (not_lt.mpr h)
    · exact absurd hc.2.2.2.2.2.1 (not_lt.mpr h)
  · exact iff_of_false (by simp) fun hc => absurd hc.2.2.2.2.2.2.1 (not_le.mpr h5)
  · exact iff_of_false (by simp) fun hc => absurd hc.2.2.2.2.2.2.2.1 (not_le.mpr h6)
  · exact iff_of_false (by simp) fun hc => absurd hc.2.2.2.2.2.2.2.2.1 (not_le.mpr h7)
  · exact iff_of_false (by simp) fun hc => absurd hc.2.2.2.2.2.2.2.2.2 (not_le.mpr h8)
  · refine iff_of_true rfl ?_
    push_neg at h4
    exact ⟨(safeNumberRe_iff d.text).mp h1, h2,
      fun h => h3 (Or.inl h), fun h => h3 (Or.inr h),
      h4.1, h4.2,
      not_lt.mp h5, not_lt.mp h6, not_lt.mp h7, not_lt.mp h8⟩
  · exact iff_of_false (by simp) fun hc => h1 ((safeNumberRe_iff d.text).mpr hc.1)

/-- A foldl preserves any invariant preserved by its step function. -/
theorem foldl_invariant {α β : Type} (P : α → Prop) (f : α → β → α) :
    ∀ (l : List β) (init : α), P init → (∀ st b, P st → P (f st b)) → P (l.foldl f init) := by
  intro l
  induction l with
  | nil => intro init h0 _; exact h0
  | cons b bs ih => intro init h0 hstep; exact ih (f init b) (hstep init b h0) hstep

/-- Membership in an embedded integer `for` range. -/
theorem mem_intRange {a b z : ℤ} : z ∈ intRange a b ↔ a ≤ z ∧ z ≤ b := by
  unfold intRange
  simp only [List.mem_map, List.mem_range]
  constructor
  · rintro ⟨k, hk, rfl⟩
    omega
  · rintro ⟨h1, h2⟩
    refine ⟨(z - a).toNat, by omega, by omega⟩

/-- Writing one byte keeps the buffer width. -/
theorem ImageData.width_setByte (img : ImageData) (i v : ℕ) :
    (img.setByte i v).width = img.width := rfl

/-- Writing one byte keeps the buffer height. -/
theorem ImageData.height_setByte (img : ImageData) (i v : ℕ) :
    (img.setByte i v).height = img.height := rfl

/-- Writing one byte leaves every other byte unchanged. -/
theorem ImageData.data_setByte_ne (img : ImageData) (i v j : ℕ) (h : j ≠ i) :
    (img.setByte i v).data j = img.data j := by
  unfold ImageData.setByte
  simp [h]

/-- Blob erasure keeps the buffer dimensions. -/
theorem applyBlobErasure_dims (img : ImageData) (keys : List ℤ) (c : RGB) :
    (applyBlobErasure img keys c).width = img.width ∧
    (applyBlobErasure img keys c).height = img.height := by
  induction keys generalizing img with
  | nil => exact ⟨rfl, rfl⟩
  | cons k ks ih =>
    have step : applyBlobErasure img (k :: ks) c =
        applyBlobErasure
          (if 0 ≤ k * 4 ∧ k * 4 + 3 < (img.len : ℤ) then
            ((img.setByte (k * 4).toNat c.r).setByte ((k * 4).toNat + 1) c.g).setByte
              ((k * 4).toNat + 2) c.b
          else img) ks c := rfl
    rw [step]
    split_ifs with hk
    · exact ih _
    · exact ih img

/-- Blob erasure leaves every byte outside its key writes unchanged. -/
theorem applyBlobErasure_data_ne (img : ImageData) (keys : List ℤ) (c : RGB) (j : ℕ)
    (hj : ∀ k ∈ keys, ¬((j : ℤ) = k * 4 ∨ (j : ℤ) = k * 4 + 1 ∨ (j : ℤ) = k * 4 + 2)) :
    (applyBlobErasure img keys c).data j = img.data j := by
  induction keys generalizing img with
  | nil => rfl
  | cons k ks ih =>
    have step : applyBlobErasure img (k :: ks) c =
        applyBlobErasure
          (if 0 ≤ k * 4 ∧ k * 4 + 3 < (img.len : ℤ) then
            ((img.setByte (k * 4).toNat c.r).setByte ((k * 4).toNat + 1) c.g).setByte
              ((k * 4).toNat + 2) c.b
          else img) ks c := rfl
    rw [step]
    have hk1 := hj k (List.mem_cons_self k ks)
    have hrest : ∀ k2 ∈ ks, ¬((j : ℤ) = k2 * 4 ∨ (j : ℤ) = k2 * 4 + 1 ∨ (j : ℤ) = k2 * 4 + 2) :=
      fun k2 hk2 => hj k2 (List.mem_cons_of_mem k hk2)
    split_ifs with hk
    · rw [ih _ hrest]
      obtain ⟨hk0, _⟩ := hk
      have htn : ((k * 4).toNat : ℤ) = k * 4 := Int.toNat_of_nonneg hk0
      rw [ImageData.data_setByte_ne _ _ _ _ (by omega),
        ImageData.data_setByte_ne _ _ _ _ (by omega),
        ImageData.data_setByte_ne _ _ _ _ (by omega)]
    · exact ih img hrest

/-- Decoding a pixel key `py * w + px` recovers the coordinates. -/
theorem key_decode (w : ℕ) (px py : ℤ) (h0 : 0 ≤ px) (h1 : px < (w : ℤ)) :
    Int.fdiv (py * w + px) w = py ∧ (py * w + px) % (w : ℤ) = px := by
  constructor
  · rw [Int.fdiv_eq_ediv _ (by omega)]
    rw [show py * (w : ℤ) + px = px + py * w by ring]
    rw [Int.add_mul_ediv_right _ _ (by omega : (w : ℤ) ≠ 0)]
    rw [Int.ediv_eq_zero_of_lt h0 h1]
    ring
  · rw [show py * (w : ℤ) + px = px + py * w by ring]
    rw [Int.add_mul_emod_self]
    exact Int.emod_eq_of_lt h0 h1

/-- Pixel keys are injective over in-bounds coordinates. -/
theorem key_inj (w : ℕ) (x1 x2 y1 y2 : ℤ) (hx1 : 0 ≤ x1) (h1 : x1 < (w : ℤ))
    (hx2 : 0 ≤ x2) (h2 : x2 < (w : ℤ)) (h : y1 * w + x1 = y2 * w + x2) :
    x1 = x2 ∧ y1 = y2 := by
  have e1 := (key_decode w x1 y1 hx1 h1).2
  have e2 := (key_decode w x2 y2 hx2 h2).2
  rw [h, e2] at e1
  refine ⟨e1.symm, ?_⟩
  have hdiv := congrArg (fun z => Int.fdiv z w) h
  simp only at hdiv
  rw [(key_decode w x1 y1 hx1 h1).1, (key_decode w x2 y2 hx2 h2).1] at hdiv
  exact hdiv

/-- C4: the safety classifier accepts a token iff its text is a 1–2 digit
integer, its role is neither complex nor superscript/subscript, its box
is non-degenerate, at most 15% of the canvas width and 10% of the canvas
height, its right edge stays within 95% of the canvas width and its top
stays out of the topmost 5% of the canvas height.  The classifier is a
pure function of the token and the canvas dimensions, so the partition it
induces is deterministic. -/
theorem c4_safety_classifier_iff (d : DetectedNumber) (W H : ℚ) :
    isSafeReplacementToken d W H = true ↔
      ((d.text.length = 1 ∨ d.text.length = 2) ∧ (∀ c ∈ d.text.toList, c.isDigit = true)) ∧
      d.role.getD .base ∉ COMPLEX_ROLES ∧
      d.role.getD .base ≠ .sup ∧ d.role.getD .base ≠ .sub ∧
      0 < d.bbox.width ∧ 0 < d.bbox.height ∧
      d.bbox.width ≤ W * (15 / 100) ∧ d.bbox.height ≤ H * (1 / 10) ∧
      d.bbox.x + d.bbox.width ≤ W * (95 / 100) ∧ H * (5 / 100) ≤ d.bbox.y :=
  isSafeReplacementToken_iff d W H

/-- A terminating digit redraw returns a digit below 10 that differs from
the original digit. -/
theorem drawDiffDigit_spec (rnd : ℕ → ℕ) (d : ℕ) :
    ∀ fuel pos v p, drawDiffDigit rnd d pos fuel = some (v, p) → v ≠ d ∧ v < 10 := by
  intro fuel
  induction fuel with
  | zero => intro pos v p h; simp [drawDiffDigit] at h
  | succ n ih =>
    intro pos v p h
    rw [drawDiffDigit] at h
    split_ifs at h with hv
    · exact ih _ _ _ h
    · obtain ⟨rfl, rfl⟩ : rnd pos % 10 = v ∧ pos + 1 = p := by
        simpa using h
      exact ⟨hv, Nat.mod_lt _ (by norm_num)⟩

/-- The digit-wise loop keeps the length and redraws the leading digit. -/
theorem genDigitsLoop_spec (rnd : ℕ → ℕ) (fuel : ℕ) :
    ∀ cs pos out, genDigitsLoop rnd fuel cs pos = some out →
      out.1.length = cs.length ∧
      (∀ c cs1, cs = c :: cs1 →
        ∃ v rest, v ≠ c.toNat - 48 ∧ v < 10 ∧ out.1 = Char.ofNat (48 + v) :: rest) := by
  intro cs
  induction cs with
  | nil =>
    intro pos out h
    simp [genDigitsLoop] at h
    refine ⟨by simp [← h], by intro c cs1 hcs; cases hcs⟩
  | cons c cs1 ih =>
    intro pos out h
    rw [genDigitsLoop] at h
    cases hd : drawDiffDigit rnd (c.toNat - 48) pos fuel with
    | none => rw [hd] at h; cases h
    | some vp =>
      rw [hd] at h
      cases hl : genDigitsLoop rnd fuel cs1 vp.2 with
      | none => simp [hl] at h
      | some rest =>
        simp only [hl, Option.bind_eq_bind, Option.some_bind] at h
        obtain ⟨hv, hlt⟩ := drawDiffDigit_spec rnd (c.toNat - 48) fuel pos vp.1 vp.2 (by
          simpa using hd)
        have hlen := (ih vp.2 rest hl).1
        cases h
        constructor
        · simpa using hlen
        · intro c2 cs2 hcs
          cases hcs
          exact ⟨vp.1, rest.1, hv, hlt, rfl⟩

/-- Every terminating run of the default digit-wise policy keeps the
length of an all-digit original. -/
theorem generateDifferentNumber_length (t : String) (rnd : ℕ → ℕ) (pos fuel : ℕ)
    (s : String) (p : ℕ)
    (hdig : ∀ c ∈ t.toList, c.isDigit = true)
    (h : generateDifferentNumber t rnd pos fuel = some (s, p)) :
    s.length = t.length := by
  have hfilter : t.toList.filter Char.isDigit = t.toList := List.filter_eq_self.mpr hdig
  unfold generateDifferentNumber at h
  rw [hfilter] at h
  by_cases hemp : t.toList.isEmpty
  · simp only [hemp, if_pos] at h
    obtain ⟨rfl, rfl⟩ : t = s ∧ pos = p := by simpa using h
    rfl
  · simp only [hemp, if_neg, Bool.false_eq_true, not_false_iff, Option.map_eq_some'] at h
    obtain ⟨⟨cs, p2⟩, hloop, hs⟩ := h
    have hlen := (genDigitsLoop_spec rnd fuel t.toList pos (cs, p2) hloop).1
    have : s = String.mk cs := by
      have := congrArg Prod.fst hs
      simpa using this.symm
    rw [this]
    show cs.length = t.length
    simpa using hlen

/-- Every terminating run of the default digit-wise policy differs from a
non-empty all-digit original. -/
theorem generateDifferentNumber_ne (t : String) (rnd : ℕ → ℕ) (pos fuel : ℕ)
    (s : String) (p : ℕ)
    (hne : t ≠ "") (hdig : ∀ c ∈ t.toList, c.isDigit = true)
    (h : generateDifferentNumber t rnd pos fuel = some (s, p)) :
    s ≠ t := by
  have hfilter : t.toList.filter Char.isDigit = t.toList := List.filter_eq_self.mpr hdig
  unfold generateDifferentNumber at h
  rw [hfilter] at h
  have hemp : t.toList.isEmpty = false := by
    cases ht : t.toList with
    | nil =>
      refine absurd ?_ hne
      cases t with
      | mk l =>
        have : l = [] := by simpa [String.toList] using ht
        simp [this]
    | cons c cs => simp [ht]
  simp only [hemp, Bool.false_eq_true, if_false, Option.map_eq_some'] at h
  obtain ⟨⟨cs, p2⟩, hloop, hs⟩ := h
  cases ht : t.toList with
  | nil => rw [ht] at hemp; simp at hemp
  | cons c cs1 =>
    rw [ht] at hloop
    obtain ⟨v, rest, hvne, hvlt, hout⟩ :=
      (genDigitsLoop_spec rnd fuel (c :: cs1) pos (cs, p2) hloop).2 c cs1 rfl
    have hs1 : s = String.mk cs := by
      have := congrArg Prod.fst hs
      simpa using this.symm
    intro heq
    have hdata : cs = c :: cs1 := by
      have : s.toList = t.toList := by rw [heq]
      rw [hs1, ht] at this
      simpa using this
    rw [hdata] at hout
    have hchar : Char.ofNat (48 + v) = c := (List.cons.injEq _ _ _ _ ▸ hout).1.symm
    have htn : (Char.ofNat (48 + v)).toNat = 48 + v := by
      interval_cases v <;> decide
    have : c.toNat = 48 + v := by rw [← hchar, htn]
    exact hvne (by omega)

/-- When the bounded-retry loop of `generateRandomReplacements` returns
the original value, every one of its draws produced the original. -/
theorem genRetry_all_draws_equal (orig : String) (rnd : ℕ → ℕ) :
    ∀ n pos r p, genRetry orig rnd pos (n + 1) = (r, p) → r = orig →
      ∀ i ≤ n, generateRandomNumber orig rnd (pos + i) = orig := by
  intro n
  induction n with
  | zero =>
    intro pos r p h hr i hi
    interval_cases i
    rw [genRetry] at h
    simp only [lt_irrefl, and_false, if_false] at h
    have := congrArg Prod.fst h
    simp only at this
    rw [Nat.add_zero, this, hr]
  | succ m ih =>
    intro pos r p h hr i hi
    rw [genRetry] at h
    by_cases heq : generateRandomNumber orig rnd pos = orig
    · rw [if_pos ⟨heq, Nat.succ_pos m⟩] at h
      rcases Nat.eq_zero_or_pos i with hz | hpos
      · rw [hz, Nat.add_zero]; exact heq
      · obtain ⟨j, rfl⟩ : ∃ j, i = j + 1 := ⟨i - 1, by omega⟩
        have := ih (pos + 1) r p h hr j (by omega)
        rw [show pos + (j + 1) = pos + 1 + j by omega]
        exact this
    · rw [if_neg (by tauto)] at h
      have := congrArg Prod.fst h
      simp only at this
      exact absurd (this ▸ hr) heq

/-- C5 counterexample: the claim that the replacement always differs from
the original fails for the secondary whole-value policy.  With the draw
stream constantly producing the value 5, `generateRandomReplacements`
exhausts its ten bounded retries and returns "5" as the replacement for
"5". -/
theorem c5_counterexample_secondary_returns_original :
    (generateRandomReplacements ["5"] (fun _ => 4) 0).1 = [("5", "5")] := by decide

/-- C5 amended: under the default digit-wise policy every terminating
replacement differs from the accepted original; under the secondary
whole-value policy the replacement can equal the original, but only when
all ten bounded retries drew the original value. -/
theorem c5_amended_policy_inequality :
    (∀ (t : String) (rnd : ℕ → ℕ) (pos fuel : ℕ) (s : String) (p : ℕ),
       safeNumberRe t = true →
       generateDifferentNumber t rnd pos fuel = some (s, p) → s ≠ t) ∧
    (∀ (orig : String) (rnd : ℕ → ℕ) (n pos : ℕ) (r : String) (p : ℕ),
       genRetry orig rnd pos (n + 1) = (r, p) → r = orig →
       ∀ i ≤ n, generateRandomNumber orig rnd (pos + i) = orig) := by
  constructor
  · intro t rnd pos fuel s p hsafe h
    obtain ⟨hlen, hdig⟩ := (safeNumberRe_iff t).mp hsafe
    have hne : t ≠ "" := by
      intro ht
      rw [ht] at hlen
      simp at hlen
    exact generateDifferentNumber_ne t rnd pos fuel s p hne hdig h
  · intro orig rnd n pos r p h hr
    exact genRetry_all_draws_equal orig rnd n pos r p h hr

/-- Witness for the C5 amended theorem at concrete inputs. -/
theorem c5_amended_policy_inequality_witness :
    generateDifferentNumber "7" (fun _ => 0) 0 10 = some ("0", 1) ∧ "0" ≠ "7" ∧
    genRetry "5" (fun _ => 4) 0 10 = ("5", 10) ∧
    generateRandomNumber "5" (fun _ => 4) (0 + 3) = "5" := by
  refine ⟨by decide,
    c5_amended_policy_inequality.1 "7" (fun _ => 0) 0 10 "0" 1 (by decide) (by decide),
    by decide,
    c5_amended_policy_inequality.2 "5" (fun _ => 4) 9 0 "5" 10 (by decide) rfl 3 (by decide)⟩

/-- C6: for every accepted token (a 1–2 digit text) and every terminating
outcome of the random stream, the default digit-wise replacement has
exactly the length of the original. -/
theorem c6_digitwise_length_preserved (t : String) (rnd : ℕ → ℕ) (pos fuel : ℕ)
    (s : String) (p : ℕ)
    (hsafe : safeNumberRe t = true)
    (h : generateDifferentNumber t rnd pos fuel = some (s, p)) :
    s.length = t.length :=
  generateDifferentNumber_length t rnd pos fuel s p ((safeNumberRe_iff t).mp hsafe).2 h

/-- Witness for C6 at a concrete input. -/
theorem c6_digitwise_length_preserved_witness :
    generateDifferentNumber "23" (fun _ => 0) 0 10 = some ("00", 2) ∧
    ("00" : String).length = ("23" : String).length := by
  exact ⟨by decide,
    c6_digitwise_length_preserved "23" (fun _ => 0) 0 10 "00" 2 (by decide) (by decide)⟩

/-- C8 counterexample: the detector-route conversion (0–1000 corners to
pixels) does round: `xmin = 1.5` on a 1000-pixel-wide image has exact
pixel coordinate 1.5, but `parseDetectionResult` returns 2. -/
theorem c8_counterexample_route_rounds :
    (parseDetectionBbox (3 / 2) 0 (7 / 2) 2 1000 1000).1 = 2 ∧
    (3 / 2 : ℚ) / 1000 * 1000 ≠ ((parseDetectionBbox (3 / 2) 0 (7 / 2) 2 1000 1000).1 : ℚ) := by
  constructor
  · with_unfolding_all decide
  · intro h
    rw [show (parseDetectionBbox (3 / 2) 0 (7 / 2) 2 1000 1000).1 = 2 by
      with_unfolding_all decide] at h
    norm_num at h

/-- C8 amended: the 0–1 path (`normalizedBboxToCSS`) performs the exact
scaling with no rounding, and the 0–1000 detector-route path equals that
exact conversion composed with `Math.round` on every coordinate. -/
theorem c8_amended_conversion_rounding (xmin ymin xmax ymax W H : ℚ) :
    parseDetectionBbox xmin ymin xmax ymax W H =
      (jsRound (normalizedBboxToCSS (xmin / 1000) (ymin / 1000) (xmax / 1000) (ymax / 1000) W H).x,
       jsRound (normalizedBboxToCSS (xmin / 1000) (ymin / 1000) (xmax / 1000) (ymax / 1000) W H).y,
       jsRound (normalizedBboxToCSS (xmin / 1000) (ymin / 1000) (xmax / 1000) (ymax / 1000) W H).width,
       jsRound (normalizedBboxToCSS (xmin / 1000) (ymin / 1000) (xmax / 1000) (ymax / 1000) W H).height) := by
  unfold parseDetectionBbox normalizedBboxToCSS
  simp only
  refine congrArg₂ Prod.mk ?_ (congrArg₂ Prod.mk ?_ (congrArg₂ Prod.mk ?_ ?_)) <;>
    exact congrArg jsRound (by ring)

/-- C10: blob erasure writes only the red, green and blue bytes; every
alpha byte (index ≡ 3 mod 4) is left unchanged, for every image, key set
and fill colour. -/
theorem c10_alpha_byte_unchanged (img : ImageData) (keys : List ℤ) (c : RGB) (j : ℕ)
    (hj : j % 4 = 3) :
    (applyBlobErasure img keys c).data j = img.data j := by
  induction keys generalizing img with
  | nil => rfl
  | cons k ks ih =>
    have step : applyBlobErasure img (k :: ks) c =
        applyBlobErasure
          (if 0 ≤ k * 4 ∧ k * 4 + 3 < (img.len : ℤ) then
            ((img.setByte (k * 4).toNat c.r).setByte ((k * 4).toNat + 1) c.g).setByte
              ((k * 4).toNat + 2) c.b
          else img) ks c := rfl
    rw [step]
    split_ifs with hk
    · rw [ih]
      have h4 : (k * 4).toNat % 4 = 0 := by
        obtain ⟨hk0, _⟩ := hk
        have : k * 4 = ((k.toNat * 4 : ℕ) : ℤ) := by
          push_cast
          omega
        rw [this, Int.toNat_natCast]
        omega
      unfold ImageData.setByte
      simp only
      rw [if_neg (by omega), if_neg (by omega), if_neg (by omega)]
    · exact ih img

/-- Witness for C10 at a concrete input. -/
theorem c10_alpha_byte_unchanged_witness :
    (7 : ℕ) % 4 = 3 ∧
    (applyBlobErasure exWhiteImage [447] ⟨0, 0, 0⟩).data 7 = exWhiteImage.data 7 :=
  ⟨by decide, c10_alpha_byte_unchanged exWhiteImage [447] ⟨0, 0, 0⟩ 7 (by decide)⟩

/-- A foldl preserves any invariant preserved by its step function on
list elements. -/
theorem foldl_invariant_mem {α β : Type} (P : α → Prop) (f : α → β → α) :
    ∀ (l : List β) (init : α), P init → (∀ st b, b ∈ l → P st → P (f st b)) →
      P (l.foldl f init) := by
  intro l
  induction l with
  | nil => intro init h0 _; exact h0
  | cons b bs ih =>
    intro init h0 hstep
    exact ih (f init b) (hstep init b (List.mem_cons_self b bs) h0)
      fun st b2 hb2 => hstep st b2 (List.mem_cons_of_mem b hb2)

/-- `fillRect` keeps the dimensions and writes only inside the clipped
rectangle. -/
theorem fillRect_props (img : ImageData) (x1 y1 fw fh : ℤ) (c : RGB) :
    (img.fillRect x1 y1 fw fh c).width = img.width ∧
    (img.fillRect x1 y1 fw fh c).height = img.height ∧
    ∀ j : ℕ, (img.fillRect x1 y1 fw fh c).data j ≠ img.data j →
      ∃ px py : ℤ, max 0 x1 ≤ px ∧ px < min (img.width : ℤ) (x1 + fw) ∧
        max 0 y1 ≤ py ∧ py < min (img.height : ℤ) (y1 + fh) ∧
        ∃ ch : ℕ, ch < 4 ∧ (j : ℤ) = (py * img.width + px) * 4 + ch := by
  unfold ImageData.fillRect
  refine foldl_invariant_mem
    (fun im : ImageData => im.width = img.width ∧ im.height = img.height ∧
      ∀ j : ℕ, im.data j ≠ img.data j →
        ∃ px py : ℤ, max 0 x1 ≤ px ∧ px < min (img.width : ℤ) (x1 + fw) ∧
          max 0 y1 ≤ py ∧ py < min (img.height : ℤ) (y1 + fh) ∧
          ∃ ch : ℕ, ch < 4 ∧ (j : ℤ) = (py * img.width + px) * 4 + ch)
    _ _ _ ⟨rfl, rfl, fun j hj => absurd rfl hj⟩ ?_
  intro im y hy him
  have hyr := mem_intRange.mp hy
  refine foldl_invariant_mem
    (fun im2 : ImageData => im2.width = img.width ∧ im2.height = img.height ∧
      ∀ j : ℕ, im2.data j ≠ img.data j →
        ∃ px py : ℤ, max 0 x1 ≤ px ∧ px < min (img.width : ℤ) (x1 + fw) ∧
          max 0 y1 ≤ py ∧ py < min (img.height : ℤ) (y1 + fh) ∧
          ∃ ch : ℕ, ch < 4 ∧ (j : ℤ) = (py * img.width + px) * 4 + ch)
    _ _ _ him ?_
  intro im2 x hx him2
  have hxr := mem_intRange.mp hx
  obtain ⟨hw2, hh2, hdata2⟩ := him2
  have hkey0 : 0 ≤ (y * (im2.width : ℤ) + x) * 4 := by
    have : 0 ≤ y := le_trans (le_max_left 0 y1) hyr.1
    have : 0 ≤ x := le_trans (le_max_left 0 x1) hxr.1
    positivity
  refine ⟨by simp [hw2, ImageData.width_setByte], by simp [hh2, ImageData.height_setByte], ?_⟩
  intro j hj
  set idx := ((y * (im2.width : ℤ) + x) * 4).toNat with hidx
  by_cases hcase : j = idx ∨ j = idx + 1 ∨ j = idx + 2 ∨ j = idx + 3
  · refine ⟨x, y, by omega, by omega, by omega, by omega, j - idx, ?_, ?_⟩
    · omega
    · have : (idx : ℤ) = (y * (im2.width : ℤ) + x) * 4 := by
        rw [hidx]
        exact Int.toNat_of_nonneg hkey0
      rw [hw2] at this
      omega
  · push_neg at hcase
    obtain ⟨hc0, hc1, hc2, hc3⟩ := hcase
    rw [ImageData.data_setByte_ne _ _ _ _ hc3, ImageData.data_setByte_ne _ _ _ _ hc2,
      ImageData.data_setByte_ne _ _ _ _ hc1, ImageData.data_setByte_ne _ _ _ _ hc0] at hj
    exact hdata2 j hj



/-- When the seed search found anything darker than the initial 255, the
seed lies inside the search window. -/
theorem seedSearch_mem (img : ImageData) (x1 x2 y1 y2 cx cy : ℤ) (r : ℚ) :
    (seedSearch img x1 x2 y1 y2 cx cy r).2.2 < 255 →
      x1 ≤ (seedSearch img x1 x2 y1 y2 cx cy r).1 ∧
      (seedSearch img x1 x2 y1 y2 cx cy r).1 ≤ x2 ∧
      y1 ≤ (seedSearch img x1 x2 y1 y2 cx cy r).2.1 ∧
      (seedSearch img x1 x2 y1 y2 cx cy r).2.1 ≤ y2 := by
  unfold seedSearch
  refine foldl_invariant
    (fun st : ℤ × ℤ × ℚ => st.2.2 < 255 →
      x1 ≤ st.1 ∧ st.1 ≤ x2 ∧ y1 ≤ st.2.1 ∧ st.2.1 ≤ y2)
    _ _ _ (fun h => absurd h (by norm_num)) ?_
  intro st ky hst
  refine foldl_invariant
    (fun st : ℤ × ℤ × ℚ => st.2.2 < 255 →
      x1 ≤ st.1 ∧ st.1 ≤ x2 ∧ y1 ≤ st.2.1 ∧ st.2.1 ≤ y2)
    _ _ _ hst ?_
  intro st2 kx hst2
  simp only
  split_ifs with hrange hlum
  · exact hst2
  · intro _
    push_neg at hrange
    exact ⟨hrange.1, hrange.2.1, hrange.2.2.1, hrange.2.2.2⟩
  · exact hst2

/-- Every pixel the BFS accepts is in canvas bounds and within the
2-pixel expanded margin of the snapped padded box. -/
theorem bfsFlood_bounds (img : ImageData) (x1 x2 y1 y2 : ℤ) :
    ∀ (fuel : ℕ) (queue : List (ℤ × ℤ)) (visited : List ℤ) (acc : List (ℤ × ℤ)),
      (∀ q ∈ queue, 0 ≤ q.1 ∧ q.1 < (img.width : ℤ) ∧ 0 ≤ q.2 ∧ q.2 < (img.height : ℤ)) →
      (∀ q ∈ acc, FloodPix img.width img.height x1 x2 y1 y2 q) →
      ∀ q ∈ bfsFlood img x1 x2 y1 y2 fuel queue visited acc,
        FloodPix img.width img.height x1 x2 y1 y2 q := by
  intro fuel
  induction fuel with
  | zero => intro queue visited acc _ hacc q hq; exact hacc q hq
  | succ n ih =>
    intro queue visited acc hqueue hacc q hq
    match queue with
    | [] => exact hacc q hq
    | (cx, cy) :: rest =>
      rw [bfsFlood] at hq
      have hrest : ∀ q ∈ rest, 0 ≤ q.1 ∧ q.1 < (img.width : ℤ) ∧ 0 ≤ q.2 ∧ q.2 < (img.height : ℤ) :=
        fun q2 hq2 => hqueue q2 (List.mem_cons_of_mem _ hq2)
      have hhead := hqueue (cx, cy) (List.mem_cons_self _ _)
      split_ifs at hq with hvis hout hink
      · exact ih rest visited acc hrest hacc q hq
      · exact ih rest _ acc hrest hacc q hq
      · refine ih _ _ _ ?_ ?_ q hq
        · intro q2 hq2
          rcases List.mem_append.mp hq2 with h | h
          · exact hrest q2 h
          · obtain ⟨d, hd, hfd⟩ := List.mem_filterMap.mp h
            simp only at hfd
            split_ifs at hfd with hcond
            cases hfd
            exact ⟨hcond.2.1, hcond.2.2.1, hcond.2.2.2.1, hcond.2.2.2.2⟩
        · intro q2 hq2
          rcases List.mem_append.mp hq2 with h | h
          · exact hacc q2 h
          · have : q2 = (cx, cy) := by simpa using h
            subst this
            push_neg at hout
            exact ⟨hhead.1, hhead.2.1, hhead.2.2.1, hhead.2.2.2,
              hout.1, hout.2.1, hout.2.2.1, hout.2.2.2⟩
      · exact ih rest _ acc hrest hacc q hq

end SmartErase

namespace SmartErase

theorem mem_insertUnique {l : List ℤ} {a b : ℤ} : b ∈ insertUnique l a ↔ b ∈ l ∨ b = a := by
  unfold insertUnique
  split_ifs with h
  · constructor
    · exact Or.inl
    · rintro (hb | rfl)
      exacts [hb, h]
  · simp

theorem foldl_add_shift (l : List ℤ) : ∀ a : ℤ, l.foldl (· + ·) a = a + l.foldl (· + ·) 0 := by
  induction l with
  | nil => intro a; simp
  | cons v vs ih =>
    intro a
    simp only [List.foldl_cons]
    rw [ih (a + v), ih (0 + v)]
    ring

theorem foldl_add_le (l : List ℤ) (lo hi : ℤ) (h : ∀ v ∈ l, lo ≤ v ∧ v ≤ hi) :
    (l.length : ℤ) * lo ≤ l.foldl (· + ·) 0 ∧ l.foldl (· + ·) 0 ≤ (l.length : ℤ) * hi := by
  induction l with
  | nil => simp
  | cons v vs ih =>
    have hv := h v (List.mem_cons_self v vs)
    have ihr := ih fun v2 hv2 => h v2 (List.mem_cons_of_mem v hv2)
    simp only [List.foldl_cons, List.length_cons]
    rw [foldl_add_shift vs (0 + v)]
    push_cast
    constructor
    · nlinarith [ihr.1, ihr.2]
    · nlinarith [ihr.1, ihr.2]

theorem floodFillErase_erasedPixels (img : ImageData) (bbox : BoundingBox) (padding : ℚ) :
    ∀ key ∈ (floodFillErase img bbox padding).erasedPixels,
      ∃ px py : ℤ, key = py * img.width + px ∧
        0 ≤ px ∧ px < (img.width : ℤ) ∧ 0 ≤ py ∧ py < (img.height : ℤ) ∧
        PixelNear bbox padding 3 px py := by
  intro key hkey
  unfold floodFillErase at hkey
  simp only at hkey
  set x1 : ℤ := max 0 ⌊bbox.x - padding⌋ with hx1
  set y1 : ℤ := max 0 ⌊bbox.y - padding⌋ with hy1
  set x2 : ℤ := min ((img.width : ℤ) - 1) ⌈bbox.x + bbox.width + padding⌉ with hx2
  set y2 : ℤ := min ((img.height : ℤ) - 1) ⌈bbox.y + bbox.height + padding⌉ with hy2
  set seed := seedSearch img x1 x2 y1 y2 ⌊bbox.x + bbox.width / 2⌋ ⌊bbox.y + bbox.height / 2⌋
    (max 3 (min bbox.width bbox.height / 4)) with hseeddef
  split_ifs at hkey with hseed harea
  · simp at hkey
  · -- success branch
    have hseedlt : seed.2.2 < 255 := by
      have h1 : seed.2.2 < INK_THRESHOLD := by
        unfold isInkPixel at hseed
        exact of_decide_eq_true hseed
      unfold INK_THRESHOLD at h1
      linarith
    have hseedrange := seedSearch_mem img x1 x2 y1 y2 _ _ _ hseedlt
    rw [← hseeddef] at hseedrange
    have hqueue : ∀ q ∈ [(seed.1, seed.2.1)],
        0 ≤ q.1 ∧ q.1 < (img.width : ℤ) ∧ 0 ≤ q.2 ∧ q.2 < (img.height : ℤ) := by
      intro q hq
      have : q = (seed.1, seed.2.1) := by simpa using hq
      subst this
      simp only
      omega
    have hbfs := bfsFlood_bounds img x1 x2 y1 y2 (9 * img.width * img.height + 9)
      [(seed.1, seed.2.1)] [] [] hqueue (by intro q hq; cases hq)
    revert hkey
    refine foldl_invariant_mem
      (fun s : List ℤ => key ∈ s →
        ∃ px py : ℤ, key = py * img.width + px ∧
          0 ≤ px ∧ px < (img.width : ℤ) ∧ 0 ≤ py ∧ py < (img.height : ℤ) ∧
          PixelNear bbox padding 3 px py)
      _ _ _ (by intro h; cases h) ?_
    intro s p hp hs hmem
    rcases mem_insertUnique.mp hmem with h | rfl
    · exact hs h
    · have hgood := hbfs p hp
      obtain ⟨hb1, hb2, hb3, hb4, hb5, hb6, hb7, hb8⟩ := hgood
      refine ⟨p.1, p.2, rfl, hb1, hb2, hb3, hb4, ?_, ?_, ?_, ?_⟩
      · have hfl : (⌊bbox.x - padding⌋ : ℚ) > bbox.x - padding - 1 := by
          have := Int.sub_one_lt_floor (bbox.x - padding)
          push_cast at this ⊢
          linarith
        have hm : ((⌊bbox.x - padding⌋ : ℤ) : ℚ) ≤ (x1 : ℚ) := by
          exact_mod_cast le_max_right (0 : ℤ) ⌊bbox.x - padding⌋
        have hc : (x1 : ℚ) - 2 ≤ (p.1 : ℚ) := by exact_mod_cast hb5
        linarith
      · have hcl : (⌈bbox.x + bbox.width + padding⌉ : ℚ) < bbox.x + bbox.width + padding + 1 :=
          Int.ceil_lt_add_one _
        have hm : (x2 : ℚ) ≤ ((⌈bbox.x + bbox.width + padding⌉ : ℤ) : ℚ) := by
          exact_mod_cast min_le_right ((img.width : ℤ) - 1) ⌈bbox.x + bbox.width + padding⌉
        have hc : (p.1 : ℚ) ≤ (x2 : ℚ) + 2 := by exact_mod_cast hb6
        linarith
      · have hfl : (⌊bbox.y - padding⌋ : ℚ) > bbox.y - padding - 1 := by
          have := Int.sub_one_lt_floor (bbox.y - padding)
          push_cast at this ⊢
          linarith
        have hm : ((⌊bbox.y - padding⌋ : ℤ) : ℚ) ≤ (y1 : ℚ) := by
          exact_mod_cast le_max_right (0 : ℤ) ⌊bbox.y - padding⌋
        have hc : (y1 : ℚ) - 2 ≤ (p.2 : ℚ) := by exact_mod_cast hb7
        linarith
      · have hcl : (⌈bbox.y + bbox.height + padding⌉ : ℚ) < bbox.y + bbox.height + padding + 1 :=
          Int.ceil_lt_add_one _
        have hm : (y2 : ℚ) ≤ ((⌈bbox.y + bbox.height + padding⌉ : ℤ) : ℚ) := by
          exact_mod_cast min_le_right ((img.height : ℤ) - 1) ⌈bbox.y + bbox.height + padding⌉
        have hc : (p.2 : ℚ) ≤ (y2 : ℚ) + 2 := by exact_mod_cast hb8
        linarith
  · simp at hkey

end SmartErase

namespace SmartErase

theorem floodFillErase_centroid (img : ImageData) (bbox : BoundingBox) (padding : ℚ)
    (hs : (floodFillErase img bbox padding).success = true) :
    (bbox.x - padding - 3 < (floodFillErase img bbox padding).centroidX ∧
     (floodFillErase img bbox padding).centroidX < bbox.x + bbox.width + padding + 3) ∧
    (bbox.y - padding - 3 < (floodFillErase img bbox padding).centroidY ∧
     (floodFillErase img bbox padding).centroidY < bbox.y + bbox.height + padding + 3) := by
  unfold floodFillErase at hs ⊢
  simp only at hs ⊢
  set x1 : ℤ := max 0 ⌊bbox.x - padding⌋ with hx1
  set y1 : ℤ := max 0 ⌊bbox.y - padding⌋ with hy1
  set x2 : ℤ := min ((img.width : ℤ) - 1) ⌈bbox.x + bbox.width + padding⌉ with hx2
  set y2 : ℤ := min ((img.height : ℤ) - 1) ⌈bbox.y + bbox.height + padding⌉ with hy2
  set seed := seedSearch img x1 x2 y1 y2 ⌊bbox.x + bbox.width / 2⌋ ⌊bbox.y + bbox.height / 2⌋
    (max 3 (min bbox.width bbox.height / 4)) with hseeddef
  split_ifs at hs ⊢ with hseed harea
  all_goals try simp at hs
  dsimp only
  have hseedlt : seed.2.2 < 255 := by
    have h1 : seed.2.2 < INK_THRESHOLD := by
      unfold isInkPixel at hseed
      exact of_decide_eq_true hseed
    unfold INK_THRESHOLD at h1
    linarith
  have hseedrange := seedSearch_mem img x1 x2 y1 y2 _ _ _ hseedlt
  rw [← hseeddef] at hseedrange
  have hqueue : ∀ q ∈ [(seed.1, seed.2.1)],
      0 ≤ q.1 ∧ q.1 < (img.width : ℤ) ∧ 0 ≤ q.2 ∧ q.2 < (img.height : ℤ) := by
    intro q hq
    have : q = (seed.1, seed.2.1) := by simpa using hq
    subst this
    simp only
    omega
  have hbfs := bfsFlood_bounds img x1 x2 y1 y2 (9 * img.width * img.height + 9)
    [(seed.1, seed.2.1)] [] [] hqueue (by intro q hq; cases hq)
  set ink := bfsFlood img x1 x2 y1 y2 (9 * img.width * img.height + 9)
    [(seed.1, seed.2.1)] [] [] with hink
  have hlen : 1 ≤ ink.length := by
    by_contra hcon
    push_neg at hcon
    interval_cases hl : ink.length
    · push_neg at harea
      have : (4 : ℚ) ≤ ((0 : ℕ) : ℚ) := le_trans (le_max_left _ _) harea
      norm_num at this
  have hlenq : (0 : ℚ) < (ink.length : ℚ) := by
    exact_mod_cast Nat.lt_of_lt_of_le Nat.zero_lt_one hlen
  have hxsb : ∀ v ∈ ink.map Prod.fst, x1 - 2 ≤ v ∧ v ≤ x2 + 2 := by
    intro v hv
    obtain ⟨q, hq, rfl⟩ := List.mem_map.mp hv
    obtain ⟨_, _, _, _, h5, h6, _, _⟩ := hbfs q hq
    exact ⟨h5, h6⟩
  have hysb : ∀ v ∈ ink.map Prod.snd, y1 - 2 ≤ v ∧ v ≤ y2 + 2 := by
    intro v hv
    obtain ⟨q, hq, rfl⟩ := List.mem_map.mp hv
    obtain ⟨_, _, _, _, _, _, h7, h8⟩ := hbfs q hq
    exact ⟨h7, h8⟩
  have hsx := foldl_add_le (ink.map Prod.fst) (x1 - 2) (x2 + 2) hxsb
  have hsy := foldl_add_le (ink.map Prod.snd) (y1 - 2) (y2 + 2) hysb
  rw [List.length_map] at hsx hsy
  have hxflo : bbox.x - padding - 1 < ((⌊bbox.x - padding⌋ : ℤ) : ℚ) := by
    have := Int.sub_one_lt_floor (bbox.x - padding)
    push_cast at this ⊢
    linarith
  have hyflo : bbox.y - padding - 1 < ((⌊bbox.y - padding⌋ : ℤ) : ℚ) := by
    have := Int.sub_one_lt_floor (bbox.y - padding)
    push_cast at this ⊢
    linarith
  have hxcei : ((⌈bbox.x + bbox.width + padding⌉ : ℤ) : ℚ) < bbox.x + bbox.width + padding + 1 :=
    Int.ceil_lt_add_one _
  have hycei : ((⌈bbox.y + bbox.height + padding⌉ : ℤ) : ℚ) < bbox.y + bbox.height + padding + 1 :=
    Int.ceil_lt_add_one _
  have hx1b : ((⌊bbox.x - padding⌋ : ℤ) : ℚ) ≤ (x1 : ℚ) := by
    exact_mod_cast le_max_right (0 : ℤ) ⌊bbox.x - padding⌋
  have hy1b : ((⌊bbox.y - padding⌋ : ℤ) : ℚ) ≤ (y1 : ℚ) := by
    exact_mod_cast le_max_right (0 : ℤ) ⌊bbox.y - padding⌋
  have hx2b : (x2 : ℚ) ≤ ((⌈bbox.x + bbox.width + padding⌉ : ℤ) : ℚ) := by
    exact_mod_cast min_le_right ((img.width : ℤ) - 1) ⌈bbox.x + bbox.width + padding⌉
  have hy2b : (y2 : ℚ) ≤ ((⌈bbox.y + bbox.height + padding⌉ : ℤ) : ℚ) := by
    exact_mod_cast min_le_right ((img.height : ℤ) - 1) ⌈bbox.y + bbox.height + padding⌉
  have hsx1 : ((ink.length : ℤ) * (x1 - 2) : ℚ) ≤
      ((List.foldl (· + ·) 0 (ink.map Prod.fst) : ℤ) : ℚ) := by exact_mod_cast hsx.1
  have hsx2 : ((List.foldl (· + ·) 0 (ink.map Prod.fst) : ℤ) : ℚ) ≤
      ((ink.length : ℤ) * (x2 + 2) : ℚ) := by exact_mod_cast hsx.2
  have hsy1 : ((ink.length : ℤ) * (y1 - 2) : ℚ) ≤
      ((List.foldl (· + ·) 0 (ink.map Prod.snd) : ℤ) : ℚ) := by exact_mod_cast hsy.1
  have hsy2 : ((List.foldl (· + ·) 0 (ink.map Prod.snd) : ℤ) : ℚ) ≤
      ((ink.length : ℤ) * (y2 + 2) : ℚ) := by exact_mod_cast hsy.2
  push_cast at hsx1 hsx2 hsy1 hsy2
  refine ⟨⟨?_, ?_⟩, ?_, ?_⟩
  · rw [lt_div_iff₀ hlenq]
    nlinarith
  · rw [div_lt_iff₀ hlenq]
    nlinarith
  · rw [lt_div_iff₀ hlenq]
    nlinarith
  · rw [div_lt_iff₀ hlenq]
    nlinarith

end SmartErase

namespace SmartErase

theorem mem_dilationOffsets {r : ℕ} {v : ℤ} :
    v ∈ (List.range (2 * r + 1)).map (fun k : ℕ => (k : ℤ) - r) ↔ -(r : ℤ) ≤ v ∧ v ≤ r := by
  simp only [List.mem_map, List.mem_range]
  constructor
  · rintro ⟨k, hk, rfl⟩
    omega
  · rintro ⟨h1, h2⟩
    exact ⟨(v + r).toNat, by omega, by omega⟩

theorem dilateErasedArea_bounds (keys : List ℤ) (w h : ℕ) (r : ℕ) (bbox : BoundingBox)
    (pad m : ℚ)
    (hkeys : ∀ k ∈ keys, ∃ px py : ℤ, k = py * w + px ∧
      0 ≤ px ∧ px < (w : ℤ) ∧ 0 ≤ py ∧ py < (h : ℤ) ∧ PixelNear bbox pad m px py) :
    ∀ k ∈ dilateErasedArea keys w h r, ∃ px py : ℤ, k = py * w + px ∧
      0 ≤ px ∧ px < (w : ℤ) ∧ 0 ≤ py ∧ py < (h : ℤ) ∧ PixelNear bbox pad (m + r) px py := by
  have hweaken : ∀ px py : ℤ, PixelNear bbox pad m px py → PixelNear bbox pad (m + r) px py := by
    intro px py hn
    obtain ⟨h1, h2, h3, h4⟩ := hn
    have hr0 : (0 : ℚ) ≤ (r : ℕ) := by positivity
    exact ⟨by linarith, by linarith, by linarith, by linarith⟩
  unfold dilateErasedArea
  refine foldl_invariant_mem
    (fun dil : List ℤ => ∀ k ∈ dil, ∃ px py : ℤ, k = py * w + px ∧
      0 ≤ px ∧ px < (w : ℤ) ∧ 0 ≤ py ∧ py < (h : ℤ) ∧ PixelNear bbox pad (m + r) px py)
    _ _ _ ?_ ?_
  · refine foldl_invariant_mem
      (fun dil : List ℤ => ∀ k ∈ dil, ∃ px py : ℤ, k = py * w + px ∧
        0 ≤ px ∧ px < (w : ℤ) ∧ 0 ≤ py ∧ py < (h : ℤ) ∧ PixelNear bbox pad (m + r) px py)
      _ _ _ (by intro k hk; cases hk) ?_
    intro s b hb hs k hk
    rcases mem_insertUnique.mp hk with hmem | rfl
    · exact hs k hmem
    · obtain ⟨px, py, hb1, hb2, hb3, hb4, hb5, hb6⟩ := hkeys k hb
      exact ⟨px, py, hb1, hb2, hb3, hb4, hb5, hweaken px py hb6⟩
  · intro dil key hkeymem hdil
    obtain ⟨px, py, hk1, hk2, hk3, hk4, hk5, hk6⟩ := hkeys key hkeymem
    have hdec := key_decode w px py hk2 hk3
    refine foldl_invariant_mem
      (fun dil2 : List ℤ => ∀ k ∈ dil2, ∃ px py : ℤ, k = py * w + px ∧
        0 ≤ px ∧ px < (w : ℤ) ∧ 0 ≤ py ∧ py < (h : ℤ) ∧ PixelNear bbox pad (m + r) px py)
      _ _ _ hdil ?_
    intro dil3 dy hdy hdil3
    refine foldl_invariant_mem
      (fun dil4 : List ℤ => ∀ k ∈ dil4, ∃ px py : ℤ, k = py * w + px ∧
        0 ≤ px ∧ px < (w : ℤ) ∧ 0 ≤ py ∧ py < (h : ℤ) ∧ PixelNear bbox pad (m + r) px py)
      _ _ _ hdil3 ?_
    intro dil5 dx hdx hdil5
    simp only
    rw [hk1, hdec.1, hdec.2]
    split_ifs with hguard
    · intro k2 hk2mem
      rcases mem_insertUnique.mp hk2mem with hmem | rfl
      · exact hdil5 k2 hmem
      · obtain ⟨hdy1, hdy2⟩ := mem_dilationOffsets.mp hdy
        obtain ⟨hdx1, hdx2⟩ := mem_dilationOffsets.mp hdx
        obtain ⟨hn1, hn2, hn3, hn4⟩ := hk6
        have hdxq1 : -(r : ℚ) ≤ (dx : ℚ) := by exact_mod_cast hdx1
        have hdxq2 : (dx : ℚ) ≤ (r : ℚ) := by exact_mod_cast hdx2
        have hdyq1 : -(r : ℚ) ≤ (dy : ℚ) := by exact_mod_cast hdy1
        have hdyq2 : (dy : ℚ) ≤ (r : ℚ) := by exact_mod_cast hdy2
        refine ⟨px + dx, py + dy, rfl, hguard.1, hguard.2.1, hguard.2.2.1, hguard.2.2.2, ?_⟩
        refine ⟨?_, ?_, ?_, ?_⟩ <;> push_cast <;> linarith
    · exact hdil5

/-- Safe tokens have a non-degenerate box. -/
theorem isSafe_pos (d : DetectedNumber) (W H : ℚ)
    (h : isSafeReplacementToken d W H = true) : 0 < d.bbox.width ∧ 0 < d.bbox.height := by
  have hc := (isSafeReplacementToken_iff d W H).mp h
  exact ⟨hc.2.2.2.2.1, hc.2.2.2.2.2.1⟩

/-- The per-token padding is non-negative for non-negative options. -/
theorem tokenPadding_nonneg (d : DetectedNumber) (opts : SmartEraseOptions)
    (hpad : 0 ≤ opts.padding) : 0 ≤ tokenPadding d opts := by
  unfold tokenPadding
  split_ifs
  · norm_num
  · exact hpad

/-- The phase-1 erase attempt keeps dimensions, writes only within 4
pixels of the padded box, and reports a centroid within 3 pixels of it. -/
theorem phase1Erase_props (opts : SmartEraseOptions) (img : ImageData) (bbox : BoundingBox)
    (padding : ℚ) :
    (phase1Erase opts img bbox padding).img.width = img.width ∧
    (phase1Erase opts img bbox padding).img.height = img.height ∧
    (∀ j : ℕ, (phase1Erase opts img bbox padding).img.data j ≠ img.data j →
      ∃ px py : ℤ, 0 ≤ px ∧ px < (img.width : ℤ) ∧ 0 ≤ py ∧ py < (img.height : ℤ) ∧
        PixelNear bbox padding 4 px py ∧
        ∃ ch : ℕ, ch < 4 ∧ (j : ℤ) = (py * img.width + px) * 4 + ch) ∧
    ((phase1Erase opts img bbox padding).eraseSuccess = true →
      (bbox.x - padding - 3 < (phase1Erase opts img bbox padding).centroidX ∧
       (phase1Erase opts img bbox padding).centroidX < bbox.x + bbox.width + padding + 3) ∧
      (bbox.y - padding - 3 < (phase1Erase opts img bbox padding).centroidY ∧
       (phase1Erase opts img bbox padding).centroidY < bbox.y + bbox.height + padding + 3)) := by
  unfold phase1Erase
  dsimp only
  split_ifs with hblob
  · dsimp only
    have hkeys := floodFillErase_erasedPixels img bbox padding
    have hdil := dilateErasedArea_bounds (floodFillErase img bbox padding).erasedPixels
      img.width img.height 1 bbox padding 3 hkeys
    refine ⟨(applyBlobErasure_dims _ _ _).1, (applyBlobErasure_dims _ _ _).2, ?_, ?_⟩
    · intro j hj
      rcases Classical.em (∃ px py : ℤ,
        0 ≤ px ∧ px < (img.width : ℤ) ∧ 0 ≤ py ∧ py < (img.height : ℤ) ∧
        PixelNear bbox padding 4 px py ∧
        ∃ ch : ℕ, ch < 4 ∧ (j : ℤ) = (py * img.width + px) * 4 + ch) with hC | hC
      · exact hC
      · exfalso
        apply hj
        apply applyBlobErasure_data_ne
        intro k hk hbad
        obtain ⟨px, py, hk1, hk2, hk3, hk4, hk5, hk6⟩ := hdil k hk
        have hk6four : PixelNear bbox padding 4 px py := by
          rwa [show (3 + ((1 : ℕ) : ℚ)) = 4 by norm_num] at hk6
        apply hC
        rcases hbad with hb | hb | hb
        · exact ⟨px, py, hk2, hk3, hk4, hk5, hk6four, 0, by norm_num, by rw [hb, hk1]; push_cast; ring⟩
        · exact ⟨px, py, hk2, hk3, hk4, hk5, hk6four, 1, by norm_num, by rw [hb, hk1]; push_cast; ring⟩
        · exact ⟨px, py, hk2, hk3, hk4, hk5, hk6four, 2, by norm_num, by rw [hb, hk1]; push_cast; ring⟩
    · intro _
      exact floodFillErase_centroid img bbox padding hblob.1
  · dsimp only
    refine ⟨rfl, rfl, fun j hj => absurd rfl hj, fun h => by simp at h⟩



/-- One phase-1 iteration writes only inside the token's blob
neighbourhood and appends at most one draw info with a boundedly shifted
box. -/
theorem phase1Step_props (opts : SmartEraseOptions) (fuel : ℕ) (rnd : ℕ → ℕ)
    (st : PassState) (det : DetectedNumber) (st1 : PassState) (hpad : 0 ≤ opts.padding)
    (h : phase1Step opts fuel rnd st det = some st1) :
    st1.img.width = st.img.width ∧ st1.img.height = st.img.height ∧
    (∀ j : ℕ, st1.img.data j ≠ st.img.data j →
       isSafeReplacementToken det st.img.width st.img.height = true ∧
       ∃ px py : ℤ, 0 ≤ px ∧ px < (st.img.width : ℤ) ∧ 0 ≤ py ∧ py < (st.img.height : ℤ) ∧
         PixelNear det.bbox (tokenPadding det opts) 4 px py ∧
         ∃ ch : ℕ, ch < 4 ∧ (j : ℤ) = (py * st.img.width + px) * 4 + ch) ∧
    (st1.drawInfos = st.drawInfos ∨
       ∃ di, st1.drawInfos = st.drawInfos ++ [di] ∧
         isSafeReplacementToken det st.img.width st.img.height = true ∧
         BoxShifted det opts di.detection.bbox) := by
  have hprops := phase1Erase_props opts st.img det.bbox (tokenPadding det opts)
  unfold phase1Step at h
  dsimp only at h
  split_ifs at h with hsafe hsucc
  · -- safe token, blob erasure succeeded
    cases hgen : generateDifferentNumber det.text rnd st.pos fuel with
    | none => rw [hgen] at h; cases h
    | some rp =>
      rw [hgen] at h
      cases h
      dsimp only
      have hwh := isSafe_pos det st.img.width st.img.height hsafe
      have hp0 : 0 ≤ tokenPadding det opts := tokenPadding_nonneg det opts hpad
      have hc := hprops.2.2.2 hsucc
      refine ⟨hprops.1, hprops.2.1, fun j hj => ⟨hsafe, hprops.2.2.1 j hj⟩,
        Or.inr ⟨_, rfl, hsafe, ?_⟩⟩
      dsimp only
      exact ⟨rfl, rfl, by linarith [hc.1.1], by linarith [hc.1.2],
        by linarith [hc.2.1], by linarith [hc.2.2]⟩
  · -- safe token, blob erasure failed
    cases hgen : generateDifferentNumber det.text rnd st.pos fuel with
    | none => rw [hgen] at h; cases h
    | some rp =>
      rw [hgen] at h
      cases h
      dsimp only
      have hwh := isSafe_pos det st.img.width st.img.height hsafe
      have hp0 : 0 ≤ tokenPadding det opts := tokenPadding_nonneg det opts hpad
      refine ⟨hprops.1, hprops.2.1, fun j hj => ⟨hsafe, hprops.2.2.1 j hj⟩,
        Or.inr ⟨_, rfl, hsafe, ?_⟩⟩
      dsimp only
      exact ⟨rfl, rfl, by linarith [hwh.1], by linarith [hwh.1],
        by linarith [hwh.2], by linarith [hwh.2]⟩
  · -- skipped token: state unchanged
    have hst : st = st1 := by injection h
    subst hst
    exact ⟨rfl, rfl, fun j hj => absurd rfl hj, Or.inl rfl⟩



/-- The phase-1 loop writes only inside safe tokens' blob neighbourhoods
and produces draw infos linked to safe tokens. -/
theorem phase1_props (opts : SmartEraseOptions) (fuel : ℕ) (rnd : ℕ → ℕ)
    (hpad : 0 ≤ opts.padding) :
    ∀ (dets : List DetectedNumber) (st : PassState) (out : PassState),
      phase1 opts fuel rnd dets st = some out →
      out.img.width = st.img.width ∧ out.img.height = st.img.height ∧
      (∀ j : ℕ, out.img.data j ≠ st.img.data j →
         ∃ det ∈ dets, isSafeReplacementToken det st.img.width st.img.height = true ∧
           ∃ px py : ℤ, 0 ≤ px ∧ px < (st.img.width : ℤ) ∧ 0 ≤ py ∧ py < (st.img.height : ℤ) ∧
             PixelNear det.bbox (tokenPadding det opts) 4 px py ∧
             ∃ ch : ℕ, ch < 4 ∧ (j : ℤ) = (py * st.img.width + px) * 4 + ch) ∧
      (∀ di ∈ out.drawInfos, di ∈ st.drawInfos ∨
         ∃ det ∈ dets, isSafeReplacementToken det st.img.width st.img.height = true ∧
           BoxShifted det opts di.detection.bbox) := by
  intro dets
  induction dets with
  | nil =>
    intro st out h
    rw [phase1] at h
    cases h
    exact ⟨rfl, rfl, fun j hj => absurd rfl hj, fun di hdi => Or.inl hdi⟩
  | cons d ds ih =>
    intro st out h
    rw [phase1] at h
    cases hstep : phase1Step opts fuel rnd st d with
    | none => rw [hstep] at h; cases h
    | some st1 =>
      rw [hstep] at h
      obtain ⟨hw1, hh1, hdata1, hdis1⟩ := phase1Step_props opts fuel rnd st d st1 hpad hstep
      obtain ⟨hw2, hh2, hdata2, hdis2⟩ := ih st1 out h
      rw [hw1] at hw2
      rw [hh1] at hh2
      refine ⟨hw2, hh2, ?_, ?_⟩
      · intro j hj
        by_cases hmid : st1.img.data j = st.img.data j
        · have hj1 : out.img.data j ≠ st1.img.data j := by rw [hmid]; exact hj
          obtain ⟨det, hdet, hsafe, px, py, hb⟩ := hdata2 j hj1
          rw [hw1, hh1] at hsafe
          rw [hw1] at hb
          rw [hh1] at hb
          exact ⟨det, List.mem_cons_of_mem d hdet, hsafe, px, py, hb⟩
        · obtain ⟨hsafe, px, py, hb⟩ := hdata1 j hmid
          exact ⟨d, List.mem_cons_self d ds, hsafe, px, py, hb⟩
      · intro di hdi
        rcases hdis2 di hdi with hmem | ⟨det, hdet, hsafe, hshift⟩
        · rcases hdis1 with heq | ⟨di2, heq, hsafe2, hshift2⟩
          · rw [heq] at hmem
            exact Or.inl hmem
          · rw [heq] at hmem
            rcases List.mem_append.mp hmem with hm | hm
            · exact Or.inl hm
            · have : di = di2 := by simpa using hm
              subst this
              exact Or.inr ⟨d, List.mem_cons_self d ds, hsafe2, hshift2⟩
        · rw [hw1, hh1] at hsafe
          exact Or.inr ⟨det, List.mem_cons_of_mem d hdet, hsafe, hshift⟩



/-- One fallback iteration keeps dimensions and writes only within 1
pixel of the padded draw box. -/
theorem fallbackStep_props (opts : SmartEraseOptions) (img : ImageData) (di : DrawInfo) :
    (fallbackStep opts img di).width = img.width ∧
    (fallbackStep opts img di).height = img.height ∧
    ∀ j : ℕ, (fallbackStep opts img di).data j ≠ img.data j →
      ∃ px py : ℤ, 0 ≤ px ∧ px < (img.width : ℤ) ∧ 0 ≤ py ∧ py < (img.height : ℤ) ∧
        PixelNear di.detection.bbox opts.padding 1 px py ∧
        ∃ ch : ℕ, ch < 4 ∧ (j : ℤ) = (py * img.width + px) * 4 + ch := by
  unfold fallbackStep
  dsimp only
  split_ifs with hink
  · unfold calculateEraseRect
    dsimp only
    set bbox := di.detection.bbox with hbb
    set x1r : ℤ := max 0 ⌊bbox.x - opts.padding⌋ with hx1r
    set y1r : ℤ := max 0 ⌊bbox.y - opts.padding⌋ with hy1r
    set x2r : ℤ := min (img.width : ℤ) ⌈bbox.x + bbox.width + opts.padding⌉ with hx2r
    set y2r : ℤ := min (img.height : ℤ) ⌈bbox.y + bbox.height + opts.padding⌉ with hy2r
    obtain ⟨hw, hh, hdata⟩ := fillRect_props img x1r y1r (x2r - x1r) (y2r - y1r)
      (rectFillColor (sampleBrightestBorderColor img bbox opts.padding img.width img.height)
        opts.minBrightness)
    refine ⟨hw, hh, ?_⟩
    intro j hj
    obtain ⟨px, py, hp1, hp2, hp3, hp4, ch, hch, hje⟩ := hdata j hj
    have hx1n : (0 : ℤ) ≤ x1r := le_max_left _ _
    have hy1n : (0 : ℤ) ≤ y1r := le_max_left _ _
    have hpx0 : 0 ≤ px := by omega
    have hpy0 : 0 ≤ py := by omega
    have hpxW : px < (img.width : ℤ) := lt_of_lt_of_le hp2 (by omega)
    have hpyH : py < (img.height : ℤ) := lt_of_lt_of_le hp4 (by omega)
    refine ⟨px, py, hpx0, hpxW, hpy0, hpyH, ?_, ch, hch, hje⟩
    have hfx : bbox.x - opts.padding - 1 < ((⌊bbox.x - opts.padding⌋ : ℤ) : ℚ) := by
      have := Int.sub_one_lt_floor (bbox.x - opts.padding)
      push_cast at this ⊢
      linarith
    have hfy : bbox.y - opts.padding - 1 < ((⌊bbox.y - opts.padding⌋ : ℤ) : ℚ) := by
      have := Int.sub_one_lt_floor (bbox.y - opts.padding)
      push_cast at this ⊢
      linarith
    have hcx : ((⌈bbox.x + bbox.width + opts.padding⌉ : ℤ) : ℚ) <
        bbox.x + bbox.width + opts.padding + 1 := Int.ceil_lt_add_one _
    have hcy : ((⌈bbox.y + bbox.height + opts.padding⌉ : ℤ) : ℚ) <
        bbox.y + bbox.height + opts.padding + 1 := Int.ceil_lt_add_one _
    have h1 : (⌊bbox.x - opts.padding⌋ : ℤ) ≤ px := by omega
    have h2 : px < (⌈bbox.x + bbox.width + opts.padding⌉ : ℤ) := by omega
    have h3 : (⌊bbox.y - opts.padding⌋ : ℤ) ≤ py := by omega
    have h4 : py < (⌈bbox.y + bbox.height + opts.padding⌉ : ℤ) := by omega
    have h1q : ((⌊bbox.x - opts.padding⌋ : ℤ) : ℚ) ≤ (px : ℚ) := by exact_mod_cast h1
    have h2q : (px : ℚ) + 1 ≤ ((⌈bbox.x + bbox.width + opts.padding⌉ : ℤ) : ℚ) := by
      exact_mod_cast h2
    have h3q : ((⌊bbox.y - opts.padding⌋ : ℤ) : ℚ) ≤ (py : ℚ) := by exact_mod_cast h3
    have h4q : (py : ℚ) + 1 ≤ ((⌈bbox.y + bbox.height + opts.padding⌉ : ℤ) : ℚ) := by
      exact_mod_cast h4
    exact ⟨by linarith, by linarith, by linarith, by linarith⟩
  · exact ⟨rfl, rfl, fun j hj => absurd rfl hj⟩

/-- The fallback sweep writes only within 1 pixel of the padded draw
boxes. -/
theorem fallbackFold_props (opts : SmartEraseOptions) :
    ∀ (dis : List DrawInfo) (img : ImageData),
      (dis.foldl (fallbackStep opts) img).width = img.width ∧
      (dis.foldl (fallbackStep opts) img).height = img.height ∧
      ∀ j : ℕ, (dis.foldl (fallbackStep opts) img).data j ≠ img.data j →
        ∃ di ∈ dis, ∃ px py : ℤ,
          0 ≤ px ∧ px < (img.width : ℤ) ∧ 0 ≤ py ∧ py < (img.height : ℤ) ∧
          PixelNear di.detection.bbox opts.padding 1 px py ∧
          ∃ ch : ℕ, ch < 4 ∧ (j : ℤ) = (py * img.width + px) * 4 + ch := by
  intro dis
  induction dis with
  | nil => intro img; exact ⟨rfl, rfl, fun j hj => absurd rfl hj⟩
  | cons di dis ih =>
    intro img
    simp only [List.foldl_cons]
    obtain ⟨hw1, hh1, hdata1⟩ := fallbackStep_props opts img di
    obtain ⟨hw2, hh2, hdata2⟩ := ih (fallbackStep opts img di)
    rw [hw1] at hw2
    rw [hh1] at hh2
    refine ⟨hw2, hh2, ?_⟩
    intro j hj
    by_cases hmid : (fallbackStep opts img di).data j = img.data j
    · have hj1 : (dis.foldl (fallbackStep opts) (fallbackStep opts img di)).data j ≠
          (fallbackStep opts img di).data j := by rw [hmid]; exact hj
      obtain ⟨di2, hdi2, px, py, hb⟩ := hdata2 j hj1
      rw [hw1] at hb
      rw [hh1] at hb
      exact ⟨di2, List.mem_cons_of_mem di hdi2, px, py, hb⟩
    · obtain ⟨px, py, hb⟩ := hdata1 j hmid
      exact ⟨di, List.mem_cons_self di dis, px, py, hb⟩



/-- Blob-path writes land inside the declared erase neighbourhood. -/
theorem pixelNear_inRegion_blob (det : DetectedNumber) (opts : SmartEraseOptions)
    (px py : ℤ) (hpad : 0 ≤ opts.padding)
    (hw : 0 < det.bbox.width) (hh : 0 < det.bbox.height)
    (hx0 : 0 ≤ px) (hy0 : 0 ≤ py)
    (hn : PixelNear det.bbox (tokenPadding det opts) 4 px py) :
    inRegion det opts px.toNat py.toNat := by
  obtain ⟨h1, h2, h3, h4⟩ := hn
  have hxq : ((px.toNat : ℕ) : ℚ) = (px : ℚ) := by
    rw [show ((px.toNat : ℕ) : ℚ) = ((px.toNat : ℤ) : ℚ) by push_cast; ring,
      Int.toNat_of_nonneg hx0]
  have hyq : ((py.toNat : ℕ) : ℚ) = (py : ℚ) := by
    rw [show ((py.toNat : ℕ) : ℚ) = ((py.toNat : ℤ) : ℚ) by push_cast; ring,
      Int.toNat_of_nonneg hy0]
  unfold inRegion
  rw [hxq, hyq]
  refine ⟨by linarith, by linarith, by linarith, by linarith⟩

/-- Fallback writes land inside the declared erase neighbourhood of the
linked token. -/
theorem pixelNear_inRegion_fallback (det : DetectedNumber) (opts : SmartEraseOptions)
    (db : BoundingBox) (px py : ℤ) (hpad : 0 ≤ opts.padding)
    (hshift : BoxShifted det opts db)
    (hx0 : 0 ≤ px) (hy0 : 0 ≤ py)
    (hn : PixelNear db opts.padding 1 px py) :
    inRegion det opts px.toNat py.toNat := by
  obtain ⟨hbw, hbh, hs1, hs2, hs3, hs4⟩ := hshift
  obtain ⟨h1, h2, h3, h4⟩ := hn
  rw [hbw] at h2
  rw [hbh] at h4
  have hxq : ((px.toNat : ℕ) : ℚ) = (px : ℚ) := by
    rw [show ((px.toNat : ℕ) : ℚ) = ((px.toNat : ℤ) : ℚ) by push_cast; ring,
      Int.toNat_of_nonneg hx0]
  have hyq : ((py.toNat : ℕ) : ℚ) = (py : ℚ) := by
    rw [show ((py.toNat : ℕ) : ℚ) = ((py.toNat : ℤ) : ℚ) by push_cast; ring,
      Int.toNat_of_nonneg hy0]
  unfold inRegion
  rw [hxq, hyq]
  refine ⟨by linarith, by linarith, by linarith, by linarith⟩

/-- Frame property of the whole erase pass: a pixel outside every safe
token's erase neighbourhood is untouched. -/
theorem smartErase_frame (img : ImageData) (dets : List DetectedNumber)
    (opts : SmartEraseOptions) (rnd : ℕ → ℕ) (pos fuel : ℕ) (out : PassState)
    (hpad : 0 ≤ opts.padding)
    (h : smartEraseAndReplace img dets opts rnd pos fuel = some out)
    (x y : ℕ) (hx : x < img.width) (hy : y < img.height)
    (hfar : ∀ det ∈ dets, isSafeReplacementToken det img.width img.height = true →
      ¬ inRegion det opts x y) :
    ∀ ch : ℕ, ch < 4 →
      out.img.data ((y * img.width + x) * 4 + ch) = img.data ((y * img.width + x) * 4 + ch) := by
  intro ch hch
  unfold smartEraseAndReplace at h
  cases hp : phase1 opts fuel rnd dets ⟨img, [], [], pos⟩ with
  | none => rw [hp] at h; cases h
  | some st =>
    rw [hp] at h
    cases h
    dsimp only
    obtain ⟨hw1, hh1, hdata1, hdis1⟩ := phase1_props opts fuel rnd hpad dets ⟨img, [], [], pos⟩ st hp
    obtain ⟨hw2, hh2, hdata2⟩ := fallbackFold_props opts st.drawInfos st.img
    set j := (y * img.width + x) * 4 + ch with hj
    have hstep2 : (st.drawInfos.foldl (fallbackStep opts) st.img).data j = st.img.data j := by
      by_contra hcon
      obtain ⟨di, hdi, px, py, hb1, hb2, hb3, hb4, hnear, ch2, hch2, hje⟩ := hdata2 j hcon
      rcases hdis1 di hdi with hmem | ⟨det, hdet, hsafe, hshift⟩
      · cases hmem
      · have hwdet := isSafe_pos det img.width img.height hsafe
        rw [hw1] at hb2 hje
        rw [hh1] at hb4
        have hkeys : (y : ℤ) * img.width + (x : ℤ) = py * img.width + px ∧ ch = ch2 := by
          constructor
          · have := hje
            push_cast at this
            have hinj := key_inj img.width (x : ℤ) px (y : ℤ) py (by positivity)
              (by exact_mod_cast hx) hb1 hb2 (by omega)
            omega
          · have := hje
            push_cast at this
            omega
        have hinj := key_inj img.width (x : ℤ) px (y : ℤ) py (by positivity)
          (by exact_mod_cast hx) hb1 hb2 hkeys.1
        have hxeq : px.toNat = x := by omega
        have hyeq : py.toNat = y := by omega
        have hreg := pixelNear_inRegion_fallback det opts di.detection.bbox px py hpad
          hshift hb1 hb3 hnear
        rw [hxeq, hyeq] at hreg
        exact hfar det hdet hsafe hreg
    rw [hstep2]
    by_contra hcon
    obtain ⟨det, hdet, hsafe, px, py, hb1, hb2, hb3, hb4, hnear, ch2, hch2, hje⟩ :=
      hdata1 j hcon
    have hwdet := isSafe_pos det img.width img.height hsafe
    have hkeys : (y : ℤ) * img.width + (x : ℤ) = py * img.width + px ∧ ch = ch2 := by
      constructor
      · have := hje
        push_cast at this
        have hinj := key_inj img.width (x : ℤ) px (y : ℤ) py (by positivity)
          (by exact_mod_cast hx) hb1 hb2 (by omega)
        omega
      · have := hje
        push_cast at this
        omega
    have hinj := key_inj img.width (x : ℤ) px (y : ℤ) py (by positivity)
      (by exact_mod_cast hx) hb1 hb2 hkeys.1
    have hxeq : px.toNat = x := by omega
    have hyeq : py.toNat = y := by omega
    have hreg := pixelNear_inRegion_blob det opts px py hpad hwdet.1 hwdet.2 hb1 hb3 hnear
    rw [hxeq, hyeq] at hreg
    exact hfar det hdet hsafe hreg

end SmartErase

namespace SmartErase

set_option maxRecDepth 100000 in
/-- C1 counterexample: erase writes are not confined to the box expanded
by `padding + dilationRadius`.  `exSafeToken` has a small box, so its
token padding is 1 and the dilation radius is 1 — a budget of 2 pixels
per side — yet the pass on `exInkImage` turns the ink pixel `(7, 11)`
white, and `7` lies strictly outside the box expanded by that budget (the
BFS flood fill accepts ink up to 2 pixels beyond the snapped padded box
before dilation even starts). -/
theorem c1_counterexample_erase_exceeds_budget :
    tokenPadding exSafeToken defaultOptions = 1 ∧
    ((smartEraseAndReplace exInkImage [exSafeToken, exRejectedToken] defaultOptions
        (fun _ => 0) 0 20).map fun st => st.img.data ((11 * 40 + 7) * 4)).getD 0 = 255 ∧
    exInkImage.data ((11 * 40 + 7) * 4) = 100 ∧
    (7 : ℚ) < exSafeToken.bbox.x - (tokenPadding exSafeToken defaultOptions + 1) := by
  refine ⟨by with_unfolding_all decide, ?_, by with_unfolding_all decide,
    by with_unfolding_all decide⟩
  with_unfolding_all decide

/-- C1 amended: every write a complete `smartEraseAndReplace` pass makes
on behalf of its safe tokens stays inside the per-token neighbourhood
`inRegion` — the box expanded by `width / 2 + tokenPadding + padding + 4`
horizontally and `height / 2 + tokenPadding + padding + 4` vertically
(flood margin 2, dilation 1, corner snap, and the centroid shift of the
fallback rectangle).  A pixel outside every safe token's neighbourhood is
unchanged in all four channels. -/
theorem c1_amended_erase_confined (img : ImageData) (dets : List DetectedNumber)
    (opts : SmartEraseOptions) (rnd : ℕ → ℕ) (pos fuel : ℕ) (out : PassState)
    (hpad : 0 ≤ opts.padding)
    (h : smartEraseAndReplace img dets opts rnd pos fuel = some out)
    (x y : ℕ) (hx : x < img.width) (hy : y < img.height)
    (hfar : ∀ det ∈ dets, isSafeReplacementToken det img.width img.height = true →
      ¬ inRegion det opts x y) :
    ∀ ch : ℕ, ch < 4 →
      out.img.data ((y * img.width + x) * 4 + ch) = img.data ((y * img.width + x) * 4 + ch) :=
  smartErase_frame img dets opts rnd pos fuel out hpad h x y hx hy hfar

set_option maxRecDepth 100000 in
/-- Witness for the C1 amended theorem at a concrete input. -/
theorem c1_amended_erase_confined_witness :
    ((smartEraseAndReplace exWhiteImage [exSafeToken] defaultOptions (fun _ => 0) 0 20).getD
        ⟨exWhiteImage, [], [], 0⟩).img.data ((30 * 40 + 30) * 4) =
      exWhiteImage.data ((30 * 40 + 30) * 4) := by
  have hsome : smartEraseAndReplace exWhiteImage [exSafeToken] defaultOptions (fun _ => 0) 0 20 =
      some ((smartEraseAndReplace exWhiteImage [exSafeToken] defaultOptions
        (fun _ => 0) 0 20).getD ⟨exWhiteImage, [], [], 0⟩) := by
    with_unfolding_all rfl
  exact c1_amended_erase_confined exWhiteImage [exSafeToken] defaultOptions (fun _ => 0) 0 20 _
    (by with_unfolding_all decide) hsome 30 30 (by decide) (by decide)
    (by with_unfolding_all decide) 0 (by decide)

end SmartErase

namespace SmartErase

set_option maxRecDepth 100000 in
/-- C2 counterexample: a token rejected by the safety classifier does not
keep its box bit-identical.  `exRejectedToken` (text "123") is rejected
and the pixel `(7, 11)` lies inside its box, yet the pass on `exInkImage`
changes that pixel from 100 to 255: the erasure of the neighbouring safe
token bleeds into the rejected token's box. -/
theorem c2_counterexample_rejected_box_changed :
    isSafeReplacementToken exRejectedToken 40 40 = false ∧
    (exRejectedToken.bbox.x ≤ (7 : ℚ) ∧
     (7 : ℚ) < exRejectedToken.bbox.x + exRejectedToken.bbox.width ∧
     exRejectedToken.bbox.y ≤ (11 : ℚ) ∧
     (11 : ℚ) < exRejectedToken.bbox.y + exRejectedToken.bbox.height) ∧
    ((smartEraseAndReplace exInkImage [exSafeToken, exRejectedToken] defaultOptions
        (fun _ => 0) 0 20).map fun st => st.img.data ((11 * 40 + 7) * 4)).getD 0 = 255 ∧
    exInkImage.data ((11 * 40 + 7) * 4) = 100 := by
  refine ⟨by with_unfolding_all decide, by with_unfolding_all decide, ?_,
    by with_unfolding_all decide⟩
  with_unfolding_all decide

/-- C2 amended: after a complete pass a rejected token's box is
bit-identical to the input provided no safe token's erase neighbourhood
(`inRegion`) reaches the pixel — the disjointness hypothesis is forced by
the counterexample. -/
theorem c2_amended_rejected_box_unchanged (img : ImageData) (dets : List DetectedNumber)
    (opts : SmartEraseOptions) (rnd : ℕ → ℕ) (pos fuel : ℕ) (out : PassState)
    (det : DetectedNumber) (hpad : 0 ≤ opts.padding)
    (h : smartEraseAndReplace img dets opts rnd pos fuel = some out)
    (hdet : det ∈ dets)
    (hrej : isSafeReplacementToken det img.width img.height = false)
    (x y : ℕ) (hx : x < img.width) (hy : y < img.height)
    (hin : det.bbox.x ≤ (x : ℚ) ∧ (x : ℚ) < det.bbox.x + det.bbox.width ∧
           det.bbox.y ≤ (y : ℚ) ∧ (y : ℚ) < det.bbox.y + det.bbox.height)
    (hdisj : ∀ d ∈ dets, isSafeReplacementToken d img.width img.height = true →
      ¬ inRegion d opts x y) :
    ∀ ch : ℕ, ch < 4 →
      out.img.data ((y * img.width + x) * 4 + ch) = img.data ((y * img.width + x) * 4 + ch) :=
  smartErase_frame img dets opts rnd pos fuel out hpad h x y hx hy hdisj

set_option maxRecDepth 100000 in
/-- Witness for the C2 amended theorem at a concrete input. -/
theorem c2_amended_rejected_box_unchanged_witness :
    ((smartEraseAndReplace exWhiteImage [exFarToken, exRejectedToken] defaultOptions
        (fun _ => 0) 0 20).getD ⟨exWhiteImage, [], [], 0⟩).img.data ((11 * 40 + 7) * 4) =
      exWhiteImage.data ((11 * 40 + 7) * 4) := by
  have hsome : smartEraseAndReplace exWhiteImage [exFarToken, exRejectedToken] defaultOptions
      (fun _ => 0) 0 20 =
      some ((smartEraseAndReplace exWhiteImage [exFarToken, exRejectedToken] defaultOptions
        (fun _ => 0) 0 20).getD ⟨exWhiteImage, [], [], 0⟩) := by
    with_unfolding_all rfl
  exact c2_amended_rejected_box_unchanged exWhiteImage [exFarToken, exRejectedToken]
    defaultOptions (fun _ => 0) 0 20 _ exRejectedToken
    (by with_unfolding_all decide) hsome
    (by decide) (by with_unfolding_all decide) 7 11 (by decide) (by decide)
    (by with_unfolding_all decide) (by with_unfolding_all decide) 0 (by decide)

end SmartErase

namespace SmartErase

set_option maxRecDepth 100000 in
/-- C3 counterexample: a token whose two erasure strategies both fail is
still recorded.  On the all-white `exWhiteImage` the blob flood fill
fails (there is no ink seed) and the fallback probe finds no ink either,
yet the returned map contains the entry "7" -> "0" and the token is
pushed to the draw list. -/
theorem c3_counterexample_failed_token_still_recorded :
    (floodFillErase exWhiteImage exSafeToken.bbox
        (tokenPadding exSafeToken defaultOptions)).success = false ∧
    (fallbackCheck defaultOptions exWhiteImage exSafeToken.bbox).erasedPixels.length = 0 ∧
    ((smartEraseAndReplace exWhiteImage [exSafeToken] defaultOptions (fun _ => 0) 0 20).map
        fun st => mapGet st.replacements "7").getD none = some "0" ∧
    ((smartEraseAndReplace exWhiteImage [exSafeToken] defaultOptions (fun _ => 0) 0 20).map
        fun st => st.drawInfos.length).getD 0 = 1 := by
  refine ⟨by with_unfolding_all decide, by with_unfolding_all decide, ?_, ?_⟩
  · with_unfolding_all decide
  · with_unfolding_all decide

/-- C3 amended: when the blob erasure fails and the fallback probe finds
no remaining ink, a safe token's run leaves the buffer untouched — but,
contrary to the claim, the token is still recorded in the replacement map
and included in the draw list, with its original box and the font size
derived from the box height. -/
theorem c3_amended_failed_token_recorded (img : ImageData) (det : DetectedNumber)
    (opts : SmartEraseOptions) (rnd : ℕ → ℕ) (pos fuel : ℕ) (r : String) (p : ℕ)
    (hsafe : isSafeReplacementToken det img.width img.height = true)
    (hblob : (floodFillErase img det.bbox (tokenPadding det opts)).success = false)
    (hgen : generateDifferentNumber det.text rnd pos fuel = some (r, p))
    (hfb : (fallbackCheck opts img det.bbox).erasedPixels.length = 0) :
    smartEraseAndReplace img [det] opts rnd pos fuel =
      some { img := img, replacements := [(det.text, r)],
             drawInfos := [{ detection := det, newNumber := r,
                             fontSize := max ((jsRound (det.bbox.height * (75 / 100)) : ℚ))
                               opts.minFontSize }],
             pos := p } := by
  have hatt : phase1Erase opts img det.bbox (tokenPadding det opts) =
      ⟨img, det.bbox.x + det.bbox.width / 2, det.bbox.y + det.bbox.height / 2,
        det.bbox.height, false⟩ := by
    unfold phase1Erase
    rw [if_neg]
    intro hc
    rw [hblob] at hc
    exact absurd hc.1 (by simp)
  have hstep : phase1Step opts fuel rnd ⟨img, [], [], pos⟩ det =
      some { img := img, replacements := [(det.text, r)],
             drawInfos := [{ detection := det, newNumber := r,
                             fontSize := max ((jsRound (det.bbox.height * (75 / 100)) : ℚ))
                               opts.minFontSize }],
             pos := p } := by
    unfold phase1Step
    dsimp only
    rw [if_neg (by simp [hsafe]), hatt, hgen]
    dsimp only
    rw [if_neg (by simp)]
    simp [mapSet]
  unfold smartEraseAndReplace
  simp only [phase1, hstep]
  simp only [List.foldl_cons, List.foldl_nil]
  unfold fallbackStep
  dsimp only
  rw [if_neg]
  intro hc
  rw [hfb] at hc
  exact absurd hc (by simp)

set_option maxRecDepth 100000 in
/-- Witness for the C3 amended theorem at a concrete input. -/
theorem c3_amended_failed_token_recorded_witness :
    smartEraseAndReplace exWhiteImage [exSafeToken] defaultOptions (fun _ => 0) 0 20 =
      some { img := exWhiteImage, replacements := [("7", "0")],
             drawInfos := [{ detection := exSafeToken, newNumber := "0",
                             fontSize := max ((jsRound (exSafeToken.bbox.height * (75 / 100)) : ℚ))
                               defaultOptions.minFontSize }],
             pos := 1 } :=
  c3_amended_failed_token_recorded exWhiteImage exSafeToken defaultOptions (fun _ => 0) 0 20
    "0" 1 (by with_unfolding_all decide) (by with_unfolding_all decide)
    (by with_unfolding_all decide) (by with_unfolding_all decide)

end SmartErase

namespace SmartErase

/-- Lookup at a matching head entry. -/
theorem mapGet_cons_pos (q : String × String) (m : List (String × String)) (s : String)
    (h : q.1 = s) : mapGet (q :: m) s = some q.2 := by
  unfold mapGet
  rw [List.find?_cons_of_pos _ (by simp [h])]
  rfl

/-- Lookup skips a non-matching head entry. -/
theorem mapGet_cons_neg (q : String × String) (m : List (String × String)) (s : String)
    (h : ¬ q.1 = s) : mapGet (q :: m) s = mapGet m s := by
  unfold mapGet
  rw [List.find?_cons_of_neg _ (by simp [h])]

/-- A key no entry carries is not found. -/
theorem mapGet_of_any_false (k : String) :
    ∀ m : List (String × String), (m.any fun p => p.1 = k) = false → mapGet m k = none := by
  intro m
  induction m with
  | nil => intro _; rfl
  | cons q m ih =>
    intro h
    simp only [List.any_cons, Bool.or_eq_false_iff, decide_eq_false_iff_not] at h
    rw [mapGet_cons_neg q m k h.1]
    exact ih h.2

/-- The in-place update of key `k` leaves lookups of other keys
unchanged. -/
theorem mapGet_mapReplace_ne (k v s : String) (hs : ¬ s = k) :
    ∀ m : List (String × String),
      mapGet (m.map fun p => if p.1 = k then (k, v) else p) s = mapGet m s := by
  intro m
  induction m with
  | nil => rfl
  | cons q m ih =>
    by_cases hqk : q.1 = k
    · rw [List.map_cons, if_pos hqk,
        mapGet_cons_neg ((k, v) : String × String) _ s (fun h => hs h.symm),
        mapGet_cons_neg q m s (fun h => hs (hqk ▸ h : (k : String) = s).symm), ih]
    · rw [List.map_cons, if_neg hqk]
      by_cases hqs : q.1 = s
      · rw [mapGet_cons_pos q _ s hqs, mapGet_cons_pos q m s hqs]
      · rw [mapGet_cons_neg q _ s hqs, mapGet_cons_neg q m s hqs, ih]

/-- The in-place update of a present key `k` makes its lookup return the
new value. -/
theorem mapGet_mapReplace_eq (k v : String) :
    ∀ m : List (String × String), (m.any fun p => p.1 = k) = true →
      mapGet (m.map fun p => if p.1 = k then (k, v) else p) k = some v := by
  intro m
  induction m with
  | nil => intro h; simp at h
  | cons q m ih =>
    intro h
    by_cases hqk : q.1 = k
    · rw [List.map_cons, if_pos hqk, mapGet_cons_pos ((k, v) : String × String) _ k rfl]
    · rw [List.map_cons, if_neg hqk, mapGet_cons_neg q _ k hqk]
      apply ih
      simpa [List.any_cons, hqk] using h

/-- Appending an entry for key `k` leaves lookups of other keys
unchanged. -/
theorem mapGet_append_single_ne (k v s : String) (hs : ¬ s = k) :
    ∀ m : List (String × String), mapGet (m ++ [(k, v)]) s = mapGet m s := by
  intro m
  induction m with
  | nil =>
    rw [List.nil_append, mapGet_cons_neg ((k, v) : String × String) [] s (fun h => hs h.symm)]
  | cons q m ih =>
    rw [List.cons_append]
    by_cases hqs : q.1 = s
    · rw [mapGet_cons_pos q _ s hqs, mapGet_cons_pos q m s hqs]
    · rw [mapGet_cons_neg q _ s hqs, mapGet_cons_neg q m s hqs, ih]

/-- Appending an entry for an absent key makes its lookup return the new
value. -/
theorem mapGet_append_single_eq (k v : String) :
    ∀ m : List (String × String), (m.any fun p => p.1 = k) = false →
      mapGet (m ++ [(k, v)]) k = some v := by
  intro m
  induction m with
  | nil => intro _; rw [List.nil_append, mapGet_cons_pos ((k, v) : String × String) [] k rfl]
  | cons q m ih =>
    intro h
    simp only [List.any_cons, Bool.or_eq_false_iff, decide_eq_false_iff_not] at h
    rw [List.cons_append, mapGet_cons_neg q _ k h.1]
    exact ih h.2

/-- JavaScript `Map.set` followed by `Map.get`: the written key reads the
new value, every other key is unaffected. -/
theorem mapGet_mapSet (m : List (String × String)) (k v s : String) :
    mapGet (mapSet m k v) s = if s = k then some v else mapGet m s := by
  unfold mapSet
  by_cases hsk : s = k
  · subst hsk
    rw [if_pos rfl]
    cases hany : (m.any fun p => p.1 = s) with
    | true => rw [if_pos rfl, mapGet_mapReplace_eq s v m hany]
    | false => rw [if_neg (by simp), mapGet_append_single_eq s v m hany]
  · rw [if_neg hsk]
    cases hany : (m.any fun p => p.1 = k) with
    | true => rw [if_pos rfl, mapGet_mapReplace_ne k v s hsk m]
    | false => rw [if_neg (by simp), mapGet_append_single_ne k v s hsk m]

/-- `Map.set` preserves distinctness of the keys. -/
theorem mapSet_pairwise (m : List (String × String)) (k v : String)
    (h : m.Pairwise fun a b => a.1 ≠ b.1) :
    (mapSet m k v).Pairwise fun a b => a.1 ≠ b.1 := by
  unfold mapSet
  split_ifs with hany
  · rw [List.pairwise_map]
    refine h.imp ?_
    intro a b hab
    have hka : ((if a.1 = k then (k, v) else a) : String × String).1 = a.1 := by
      split_ifs with h1
      · exact h1.symm
      · rfl
    have hkb : ((if b.1 = k then (k, v) else b) : String × String).1 = b.1 := by
      split_ifs with h1
      · exact h1.symm
      · rfl
    rw [hka, hkb]
    exact hab
  · rw [List.pairwise_append]
    refine ⟨h, List.pairwise_singleton _ _, ?_⟩
    intro a ha b hb
    have hb1 : b = (k, v) := by simpa using hb
    subst hb1
    intro hak
    exact hany (List.any_eq_true.mpr ⟨a, ha, by simp [hak]⟩)

/-- The last filtered element of a list with one element appended. -/
theorem filter_concat_getLast {α : Type} (p : α → Bool) (l : List α) (a : α) :
    ((l ++ [a]).filter p).getLast? = if p a then some a else (l.filter p).getLast? := by
  rw [List.filter_append]
  cases hpa : p a with
  | true => simp [hpa, List.getLast?_concat]
  | false => simp [hpa]

/-- One phase-1 iteration either leaves the map and the draw list
unchanged (skipped token) or sets the token's text in the map and appends
exactly one draw info carrying that text and the same replacement. -/
theorem phase1Step_map (opts : SmartEraseOptions) (fuel : ℕ) (rnd : ℕ → ℕ)
    (st : PassState) (d : DetectedNumber) (st1 : PassState)
    (h : phase1Step opts fuel rnd st d = some st1) :
    (st1.replacements = st.replacements ∧ st1.drawInfos = st.drawInfos) ∨
    ∃ (r : String) (fs : ℚ) (db : BoundingBox),
      st1.replacements = mapSet st.replacements d.text r ∧
      st1.drawInfos = st.drawInfos ++
        [{ detection := { d with bbox := db }, newNumber := r, fontSize := fs }] := by
  unfold phase1Step at h
  dsimp only at h
  split_ifs at h with hsafe hsucc
  · cases hgen : generateDifferentNumber d.text rnd st.pos fuel with
    | none => rw [hgen] at h; cases h
    | some rp =>
      rw [hgen] at h
      cases h
      exact Or.inr ⟨rp.1, _, _, rfl, rfl⟩
  · cases hgen : generateDifferentNumber d.text rnd st.pos fuel with
    | none => rw [hgen] at h; cases h
    | some rp =>
      rw [hgen] at h
      cases h
      exact Or.inr ⟨rp.1, _, _, rfl, rfl⟩
  · have hst : st = st1 := by injection h
    subst hst
    exact Or.inl ⟨rfl, rfl⟩

/-- One phase-1 iteration preserves the map/draw-list invariant: each
text maps to the replacement of its last draw info, and the map keys are
pairwise distinct. -/
theorem pass_invariant_step (opts : SmartEraseOptions) (fuel : ℕ) (rnd : ℕ → ℕ)
    (st : PassState) (d : DetectedNumber) (st1 : PassState)
    (h : phase1Step opts fuel rnd st d = some st1)
    (hget : ∀ s : String, mapGet st.replacements s =
      ((st.drawInfos.filter fun di => di.detection.text = s).getLast?).map
        fun di => di.newNumber)
    (hpw : st.replacements.Pairwise fun a b => a.1 ≠ b.1) :
    (∀ s : String, mapGet st1.replacements s =
      ((st1.drawInfos.filter fun di => di.detection.text = s).getLast?).map
        fun di => di.newNumber) ∧
    st1.replacements.Pairwise fun a b => a.1 ≠ b.1 := by
  rcases phase1Step_map opts fuel rnd st d st1 h with ⟨h1, h2⟩ | ⟨r, fs, db, h1, h2⟩
  · rw [h1, h2]
    exact ⟨hget, hpw⟩
  · constructor
    · intro s
      rw [h1, h2, mapGet_mapSet, filter_concat_getLast]
      by_cases hs : s = d.text
      · rw [if_pos hs, if_pos (by simp [hs])]
        rfl
      · rw [if_neg hs,
          if_neg (by simp only [decide_eq_true_eq]; exact fun hh => hs hh.symm)]
        exact hget s
    · rw [h1]
      exact mapSet_pairwise st.replacements d.text r hpw

/-- The phase-1 loop preserves the map/draw-list invariant. -/
theorem phase1_map_props (opts : SmartEraseOptions) (fuel : ℕ) (rnd : ℕ → ℕ) :
    ∀ (dets : List DetectedNumber) (st out : PassState),
      phase1 opts fuel rnd dets st = some out →
      (∀ s : String, mapGet st.replacements s =
        ((st.drawInfos.filter fun di => di.detection.text = s).getLast?).map
          fun di => di.newNumber) →
      st.replacements.Pairwise (fun a b => a.1 ≠ b.1) →
      (∀ s : String, mapGet out.replacements s =
        ((out.drawInfos.filter fun di => di.detection.text = s).getLast?).map
          fun di => di.newNumber) ∧
      out.replacements.Pairwise (fun a b => a.1 ≠ b.1) := by
  intro dets
  induction dets with
  | nil =>
    intro st out h hget hpw
    rw [phase1] at h
    cases h
    exact ⟨hget, hpw⟩
  | cons d ds ih =>
    intro st out h hget hpw
    rw [phase1] at h
    cases hstep : phase1Step opts fuel rnd st d with
    | none => rw [hstep] at h; cases h
    | some st1 =>
      rw [hstep] at h
      obtain ⟨hget1, hpw1⟩ := pass_invariant_step opts fuel rnd st d st1 hstep hget hpw
      exact ih st1 out h hget1 hpw1

/-- C9: the returned map is keyed by original text and its keys are
pairwise distinct (at most one entry per text), and the entry for a text
is exactly the replacement generated for the last accepted token with
that text in the draw list — earlier same-text tokens keep their own
independently generated replacements in the draw list but are overwritten
in the map. -/
theorem c9_last_token_wins (img : ImageData) (dets : List DetectedNumber)
    (opts : SmartEraseOptions) (rnd : ℕ → ℕ) (pos fuel : ℕ) (out : PassState)
    (h : smartEraseAndReplace img dets opts rnd pos fuel = some out) :
    (∀ s : String, mapGet out.replacements s =
      ((out.drawInfos.filter fun di => di.detection.text = s).getLast?).map
        fun di => di.newNumber) ∧
    out.replacements.Pairwise (fun a b => a.1 ≠ b.1) := by
  unfold smartEraseAndReplace at h
  cases hp : phase1 opts fuel rnd dets ⟨img, [], [], pos⟩ with
  | none => rw [hp] at h; cases h
  | some st =>
    rw [hp] at h
    cases h
    dsimp only
    exact phase1_map_props opts fuel rnd dets ⟨img, [], [], pos⟩ st hp
      (fun s => rfl) List.Pairwise.nil

set_option maxRecDepth 100000 in
/-- Witness for C9 at a concrete input: two accepted "7" tokens are drawn
with their own replacements "0" and "1" while the map holds the single
entry "7" -> "1". -/
theorem c9_last_token_wins_witness :
    (((smartEraseAndReplace exWhiteImage [exSafeToken, exFarToken] defaultOptions
          (fun i => i) 0 20).getD ⟨exWhiteImage, [], [], 0⟩).drawInfos.map
        fun di => di.newNumber) = ["0", "1"] ∧
    ((smartEraseAndReplace exWhiteImage [exSafeToken, exFarToken] defaultOptions
          (fun i => i) 0 20).getD ⟨exWhiteImage, [], [], 0⟩).replacements = [("7", "1")] ∧
    mapGet ((smartEraseAndReplace exWhiteImage [exSafeToken, exFarToken] defaultOptions
          (fun i => i) 0 20).getD ⟨exWhiteImage, [], [], 0⟩).replacements "7" =
      ((((smartEraseAndReplace exWhiteImage [exSafeToken, exFarToken] defaultOptions
          (fun i => i) 0 20).getD ⟨exWhiteImage, [], [], 0⟩).drawInfos.filter
            fun di => di.detection.text = "7").getLast?).map fun di => di.newNumber := by
  have hsome : smartEraseAndReplace exWhiteImage [exSafeToken, exFarToken] defaultOptions
      (fun i => i) 0 20 =
      some ((smartEraseAndReplace exWhiteImage [exSafeToken, exFarToken] defaultOptions
        (fun i => i) 0 20).getD ⟨exWhiteImage, [], [], 0⟩) := by
    with_unfolding_all rfl
  refine ⟨by with_unfolding_all decide, by with_unfolding_all decide, ?_⟩
  exact (c9_last_token_wins exWhiteImage [exSafeToken, exFarToken] defaultOptions
    (fun i => i) 0 20 _ hsome).1 "7"

end SmartErase

namespace SmartErase

set_option maxRecDepth 100000 in
/-- C7 counterexample: the blob-erasure path does not snap a near-white
background to pure white.  On `exTintImage` the border sample around
`exSafeToken` is the tint (240, 240, 240) — all three channels above
210 — yet the pass writes 240, not 255, over the erased ink pixel
`(10, 11)`. -/
theorem c7_counterexample_blob_writes_tint :
    (210 < (sampleBrightestBorderColor exTintImage exSafeToken.bbox
        (tokenPadding exSafeToken defaultOptions) 40 40).r ∧
     210 < (sampleBrightestBorderColor exTintImage exSafeToken.bbox
        (tokenPadding exSafeToken defaultOptions) 40 40).g ∧
     210 < (sampleBrightestBorderColor exTintImage exSafeToken.bbox
        (tokenPadding exSafeToken defaultOptions) 40 40).b) ∧
    exTintImage.data ((11 * 40 + 10) * 4) = 0 ∧
    ((smartEraseAndReplace exTintImage [exSafeToken] defaultOptions (fun _ => 0) 0 20).map
        fun st => st.img.data ((11 * 40 + 10) * 4)).getD 0 = 240 ∧
    ((smartEraseAndReplace exTintImage [exSafeToken] defaultOptions (fun _ => 0) 0 20).map
        fun st => st.img.data ((11 * 40 + 10) * 4)).getD 0 ≠ 255 := by
  refine ⟨by with_unfolding_all decide, by with_unfolding_all decide, ?_, ?_⟩
  · with_unfolding_all decide
  · with_unfolding_all decide

/-- C7 amended: the rectangular-fallback path (`calculateEraseRect`) does
snap an all-channels-above-210 background to pure white, but the
blob-erasure path keeps the measured tint whenever the sampled luminance
is not below `minBrightness`. -/
theorem c7_amended_near_white_snap :
    (∀ (bg : SampledColor) (minB : ℚ),
        210 < bg.r ∧ 210 < bg.g ∧ 210 < bg.b → rectFillColor bg minB = pureWhite) ∧
    (∀ (bg : SampledColor) (minB : ℚ),
        ¬ bg.luminance < minB → blobFillColor bg minB = ⟨bg.r, bg.g, bg.b⟩) := by
  constructor
  · intro bg minB h
    unfold rectFillColor
    rw [if_pos (Or.inl h)]
  · intro bg minB h
    unfold blobFillColor
    rw [if_neg h]

/-- Witness for the C7 amended theorem at a concrete input. -/
theorem c7_amended_near_white_snap_witness :
    rectFillColor ⟨240, 240, 240, 240⟩ 200 = pureWhite ∧
    blobFillColor ⟨240, 240, 240, 240⟩ 200 = ⟨240, 240, 240⟩ :=
  ⟨c7_amended_near_white_snap.1 ⟨240, 240, 240, 240⟩ 200
      ⟨by norm_num, by norm_num, by norm_num⟩,
    c7_amended_near_white_snap.2 ⟨240, 240, 240, 240⟩ 200 (by norm_num)⟩

end SmartErase
